import Mathlib

/-!
Verification development for the RepoCleanr repository-merge pipeline.

The TypeScript source is embedded shallowly:

* `RepositoryService.makeRateLimitedRequest` / `handleRateLimitError`
  (frontend service) become `makeRateLimitedRequest` / `handleRateLimitError`
  over an environment giving the HTTP response of each attempt.
* `RepositoryService.batchFileTransfer` / `chunkedBatchFileTransfer` /
  `calculateOptimalChunkSize` / `chunkFiles` / `estimatePayloadSize` become
  the chunked-transfer coordinator functions.
* `RepositoryService.getRepositoryFilesConservative` becomes
  `getRepositoryFilesConservative`.
* `GitHubService.bulkFileUpload` (backend service) becomes `bulkFileUpload`.
* `RepositoryService.mergeRepositories` becomes `mergeRepositories`, with the
  read / transfer / delete collaborators abstracted into an environment; the
  coordinator is embedded separately, so the orchestrator is parametric in the
  behaviour of `batchFileTransfer`.

Every embedded function additionally returns the ordered trace of the remote
calls and sleeps it performs, so that timing and call-ordering properties of
the specification can be stated.  JavaScript loops are embedded as fuel-free
structural recursions over the iterated list; `setTimeout` waits become
`sleep` trace events; thrown exceptions become `Except` errors or explicit
caught branches, following the try/catch structure of the source.
-/

/-- Decidable equality of `Except` values, used to evaluate the embedded
functions on concrete inputs. -/
instance {ε α : Type} [DecidableEq ε] [DecidableEq α] : DecidableEq (Except ε α) := fun a b =>
  match a, b with
  | .ok x, .ok y =>
    if h : x = y then .isTrue (by rw [h]) else .isFalse (fun hc => h (Except.ok.inj hc))
  | .error x, .error y =>
    if h : x = y then .isTrue (by rw [h]) else .isFalse (fun hc => h (Except.error.inj hc))
  | .ok _, .error _ => .isFalse (by intro hc; cases hc)
  | .error _, .ok _ => .isFalse (by intro hc; cases hc)

/-- JavaScript `a || d` for a possibly `undefined` string `a` (both `undefined`
and the empty string are falsy). Used for patterns such as
`filesResult.error || "Failed to read repository files"`. -/
def jsOrElse (a : Option String) (d : String) : String :=
  match a with
  | some s => if s = "" then d else s
  | none => d

/-- JavaScript template-literal rendering of a possibly `undefined` string
(an `undefined` value prints as the text `undefined`). -/
def jsStr (a : Option String) : String :=
  match a with
  | some s => s
  | none => "undefined"

/-- Whether `pat` occurs at the start of `s` (character lists). -/
def matchesAt : List Char → List Char → Bool
  | [], _ => true
  | _ :: _, [] => false
  | a :: as, b :: bs => a == b && matchesAt as bs

/-- Whether `pat` occurs anywhere in `s` (character lists). -/
def hasSub (pat : List Char) : List Char → Bool
  | [] => matchesAt pat []
  | b :: bs => matchesAt pat (b :: bs) || hasSub pat bs

/-- JavaScript `s.includes(pat)`. -/
def strIncludes (s pat : String) : Bool :=
  hasSub pat.toList s.toList

/-- Fuelled worker for `sliceChunks`; fuel is the length of the initial list,
which is always enough because every step drops at least one element. -/
def sliceChunksAux {α : Type} : Nat → List α → Nat → List (List α)
  | _, [], _ => []
  | _, _ :: _, 0 => []
  | 0, _ :: _, _ + 1 => []
  | fuel + 1, x :: xs, k + 1 => (x :: xs.take k) :: sliceChunksAux fuel (xs.drop k) (k + 1)

/-- Source `RepositoryService.chunkFiles` (also the batch slicing loop of the
conservative branch of `mergeRepositories`): split a list into consecutive
chunks of `k` elements. The source loop `for (i = 0; i < n; i += chunkSize)`
never runs with a zero chunk size; the `k = 0` case here returns `[]`. -/
def sliceChunks {α : Type} (xs : List α) (k : Nat) : List (List α) :=
  sliceChunksAux xs.length xs k

section Executor

/-- Abstract view of the response that `fetch` produces for one attempt inside
`makeRateLimitedRequest`: a 2xx response whose body parses (`ok`), an HTTP 429
carrying the optional `retry-after` and `x-ratelimit-reset` headers
(`tooMany`), or anything else the try block turns into a thrown error — a
non-ok status or a network failure (`failed`). -/
inductive HttpResp where
  | ok
  | tooMany (retryAfter : Option Nat) (resetAt : Option Nat)
  | failed (msg : String)
deriving DecidableEq

/-- Environment of one `makeRateLimitedRequest` call: the response each
attempt number (1-based) receives, and `Date.now()` in milliseconds. -/
structure ExecEnv where
  respAt : Nat → HttpResp
  now : Nat

/-- Trace events of the executor: issuing the request of attempt `n`, or
sleeping for `ms` milliseconds. -/
inductive ExecEvent where
  | request (attempt : Nat)
  | sleep (ms : Nat)
deriving DecidableEq

/-- The wait-time computation of `RepositoryService.handleRateLimitError`:
`retry-after` seconds when present, else `max(60000, reset - now + 5000)`
from the reset timestamp (seconds) when present, else 60000; capped at
20 minutes.  `resetAt` is already in milliseconds here (`parseInt(h) * 1000`
is applied by the caller side of the header; we fold it into `t * 1000`). -/
def rateLimitWaitMs (retryAfter resetAt : Option Nat) (now : Nat) : Nat :=
  let w :=
    match retryAfter with
    | some r => r * 1000
    | none =>
      match resetAt with
      | some t => max 60000 (t * 1000 + 5000 - now)
      | none => 60000
  min w (20 * 60 * 1000)

/-- The error thrown by `handleRateLimitError` when the wait is long. -/
def rateLimitThrowMsg (minutes : Nat) : String :=
  s!"Rate limit exceeded. GitHub requires waiting {minutes} minutes. Please try again later or use fewer repositories."

/-- The error thrown by `makeRateLimitedRequest` after the final 429. -/
def rateLimitExhaustedMsg : String :=
  "Rate limit exceeded after maximum retries. Please wait before trying again."

/-- Source `RepositoryService.handleRateLimitError`: compute the wait, then either
throw a user-facing error when the rounded wait exceeds one minute, or sleep
for the wait.  `minutes` is `Math.round(waitTime / 60000)`. -/
def handleRateLimitError (retryAfter resetAt : Option Nat) (now : Nat) :
    Except String Unit × List ExecEvent :=
  let w := rateLimitWaitMs retryAfter resetAt now
  let minutes := (w + 30000) / 60000
  if minutes > 1 then
    (.error (rateLimitThrowMsg minutes), [])
  else
    (.ok (), [ExecEvent.sleep w])

/-- The retry loop of `RepositoryService.makeRateLimitedRequest`, with the
remaining loop iterations as structural fuel (`fuel = maxRetries - attempt + 1`
at entry).  On success the attempt number that succeeded is returned. -/
def execGo (env : ExecEnv) (maxRetries : Nat) :
    Nat → Nat → Except String Nat × List ExecEvent
  | 0, _ => (.error "Max retries exceeded", [])
  | fuel + 1, attempt =>
    let ev0 := [ExecEvent.request attempt]
    match env.respAt attempt with
    | .ok => (.ok attempt, ev0)
    | .tooMany ra rs =>
      if attempt = maxRetries then
        match handleRateLimitError ra rs env.now with
        | (.error msg, ev1) => (.error msg, ev0 ++ ev1)
        | (.ok _, ev1) =>
          (.error rateLimitExhaustedMsg, ev0 ++ ev1)
      else
        let back := 2 ^ attempt * 60000
        let rest := execGo env maxRetries fuel (attempt + 1)
        (rest.1, ev0 ++ [ExecEvent.sleep back] ++ rest.2)
    | .failed msg =>
      if attempt = maxRetries then
        (.error msg, ev0)
      else
        let back := 2 ^ attempt * 30000
        let rest := execGo env maxRetries fuel (attempt + 1)
        (rest.1, ev0 ++ [ExecEvent.sleep back] ++ rest.2)

/-- Source `RepositoryService.makeRateLimitedRequest(url, options, maxRetries = 3)`:
run the attempt loop starting at attempt 1. -/
def makeRateLimitedRequest (env : ExecEnv) (maxRetries : Nat) :
    Except String Nat × List ExecEvent :=
  execGo env maxRetries maxRetries 1

end Executor

section Coordinator

/-- Source `FileTransferItem`: one file submitted to the transfer pipeline. -/
structure TransferFile where
  path : String
  content : String
  encoding : String
deriving DecidableEq

/-- Source `BatchFileTransferRequest`.  The source field `folderPrefix` is named
`folderPfx` here. -/
structure BatchFileTransferRequest where
  files : List TransferFile
  message : String
  branch : String
  folderPfx : Option String
deriving DecidableEq

/-- Source `BatchFileTransferResult`. -/
structure BatchFileTransferResult where
  success : Bool
  transferredFiles : Nat
  totalFiles : Nat
  error : Option String
deriving DecidableEq

/-- Trace events of the chunked-transfer coordinator: a sleep, or the
submission of one request to `singleBatchFileTransfer`. -/
inductive ChunkEvent where
  | sleep (ms : Nat)
  | submit (req : BatchFileTransferRequest)
deriving DecidableEq

/-- Source `RepositoryService.estimatePayloadSize`: per file, twice the path length
plus the content length plus 100 bytes of JSON overhead. -/
def estimatePayloadSize (files : List TransferFile) : Nat :=
  files.foldl (fun acc f => acc + (f.path.length * 2 + f.content.length + 100)) 0

/-- Sum of the content lengths, as computed by the `reduce` inside
`calculateOptimalChunkSize`. -/
def totalContentSize (files : List TransferFile) : Nat :=
  files.foldl (fun acc f => acc + f.content.length) 0

/-- Source `RepositoryService.calculateOptimalChunkSize`:
`min(max(1, floor(25MB / avgFileSize)), 50)` with
`avgFileSize = totalSize / files.length`.  The JavaScript float division is
modelled rationally as `25MB * n / totalSize`; a zero `totalSize` makes the
JavaScript quotient `Infinity`, which the 50-file cap collapses to 50. -/
def calculateOptimalChunkSize (files : List TransferFile) : Nat :=
  let totalSize := totalContentSize files
  if totalSize = 0 then 50
  else min (max 1 (25 * 1024 * 1024 * files.length / totalSize)) 50

/-- The chunk loop of `RepositoryService.chunkedBatchFileTransfer`: submit
each chunk in order, sleeping 2000 ms before every chunk but the first;
sum the transferred counts of successful chunks and record an error string
for each failed chunk.  `total` is the number of chunks (used in the chunk
commit messages), `i` the current chunk index. -/
def chunkLoop (single : BatchFileTransferRequest → BatchFileTransferResult)
    (base : BatchFileTransferRequest) (total : Nat) :
    List (List TransferFile) → Nat → Nat × List String × List ChunkEvent
  | [], _ => (0, [], [])
  | chunk :: rest, i =>
    let ev0 := if i > 0 then [ChunkEvent.sleep 2000] else []
    let j := i + 1
    let bm := base.message
    let req : BatchFileTransferRequest :=
      { base with files := chunk, message := s!"{bm} (chunk {j}/{total})" }
    let res := single req
    let t := chunkLoop single base total rest (i + 1)
    if res.success then
      (res.transferredFiles + t.1, t.2.1, ev0 ++ [ChunkEvent.submit req] ++ t.2.2)
    else
      let e := jsStr res.error
      (t.1, s!"Chunk {j}: {e}" :: t.2.1, ev0 ++ [ChunkEvent.submit req] ++ t.2.2)

/-- Source `RepositoryService.chunkedBatchFileTransfer`: compute the chunk size,
slice the files, drive the chunk loop, and aggregate: success iff some file
was transferred and no chunk failed; errors joined with `"; "`. -/
def chunkedBatchFileTransfer
    (single : BatchFileTransferRequest → BatchFileTransferResult)
    (req : BatchFileTransferRequest) :
    BatchFileTransferResult × List ChunkEvent :=
  let k := calculateOptimalChunkSize req.files
  let chunks := sliceChunks req.files k
  let r := chunkLoop single req chunks.length chunks 0
  ({ success := r.1 > 0 && r.2.1.isEmpty,
     transferredFiles := r.1,
     totalFiles := req.files.length,
     error := if r.2.1.isEmpty then none else some (String.intercalate "; " r.2.1) },
   r.2.2)

/-- Source `RepositoryService.batchFileTransfer`: use the chunked path exactly when
the estimated payload exceeds 80 MB or there are more than 200 files;
otherwise submit the whole request as a single batch.
`singleBatchFileTransfer` catches its own errors and returns a
`BatchFileTransferResult`, so it is modelled as the total function
`single`. -/
def batchFileTransfer
    (single : BatchFileTransferRequest → BatchFileTransferResult)
    (req : BatchFileTransferRequest) :
    BatchFileTransferResult × List ChunkEvent :=
  if estimatePayloadSize req.files > 80 * 1024 * 1024 ∨ req.files.length > 200 then
    chunkedBatchFileTransfer single req
  else
    (single req, [ChunkEvent.submit req])

/-- Recogniser for submission events, used to state sequencing properties. -/
def ChunkEvent.isSubmit : ChunkEvent → Bool
  | .submit _ => true
  | _ => false

/-- Tail shape of a well-paced chunk trace: alternating 2-second sleeps and
submissions. -/
def altTail : List ChunkEvent → Bool
  | [] => true
  | .sleep 2000 :: .submit _ :: rest => altTail rest
  | _ => false

/-- Shape of a well-paced chunk trace: a first submission, then alternating
2-second sleeps and submissions (so consecutive submissions are always
separated by a 2-second pause). -/
def chunkTraceShape : List ChunkEvent → Bool
  | [] => true
  | .submit _ :: rest => altTail rest
  | _ => false

end Coordinator

section ConservativeReader

/-- One entry of the root-directory listing consumed by
`getRepositoryFilesConservative`. -/
structure RootItem where
  type : String
  name : String
  path : String
deriving DecidableEq

/-- Response of a per-file contents fetch (`content` and `encoding` may be
absent, mirrored by `Option`). -/
structure FileContentResp where
  content : Option String
  encoding : Option String
deriving DecidableEq

/-- Environment of `getRepositoryFilesConservative`: the outcome of the
archive-URL probe (`getRepositoryArchiveUrl` catches internally and returns a
success flag and optional URL), the root listing (`Except` for a thrown
request error, `none` for a non-array response body), and the per-file
contents fetch. -/
structure ConsEnv where
  archiveSuccess : Bool
  archiveUrl : Option String
  listRoot : Except String (Option (List RootItem))
  fileContent : String → Except String FileContentResp

/-- Trace events of the conservative reader. -/
inductive ConsEvent where
  | archiveCall
  | sleep (ms : Nat)
  | listCall
  | fileCall (path : String)
deriving DecidableEq

/-- A file as returned by the conservative reader. -/
structure ConsFile where
  path : String
  content : String
  encoding : String
deriving DecidableEq

/-- Result of `getRepositoryFilesConservative`, plus its call/sleep trace. -/
structure ConsOut where
  success : Bool
  files : List ConsFile
  totalFiles : Nat
  method : String
  error : Option String
  events : List ConsEvent
deriving DecidableEq

/-- The per-file loop of `getRepositoryFilesConservative`: sleep 5000 ms
before every file but the first, fetch the file, keep it on success
(`content || ""`, `encoding || "base64"`), skip it on failure. -/
def consFileLoop (env : ConsEnv) : List RootItem → Nat → List ConsFile × List ConsEvent
  | [], _ => ([], [])
  | item :: rest, i =>
    let ev0 := if i > 0 then [ConsEvent.sleep 5000] else []
    let t := consFileLoop env rest (i + 1)
    match env.fileContent item.path with
    | .ok fc =>
      (⟨item.path, jsOrElse fc.content "", jsOrElse fc.encoding "base64"⟩ :: t.1,
       ev0 ++ [ConsEvent.fileCall item.path] ++ t.2)
    | .error _ =>
      (t.1, ev0 ++ [ConsEvent.fileCall item.path] ++ t.2)

/-- Source `RepositoryService.getRepositoryFilesConservative`: probe the archive URL
first; if it is available, give up (client-side extraction unimplemented).
Otherwise sleep 10 s, list the root directory, keep only entries of type
`"file"`, and fetch them one by one through `consFileLoop`.  A throw from the
listing is caught by the outer catch and reported as method `"failed"`. -/
def getRepositoryFilesConservative (env : ConsEnv) : ConsOut :=
  if env.archiveSuccess && env.archiveUrl.isSome then
    { success := false, files := [], totalFiles := 0, method := "archive-download",
      error := some "Archive download available but client-side extraction not implemented yet. Use minimal API mode.",
      events := [ConsEvent.archiveCall] }
  else
    match env.listRoot with
    | .error msg =>
      { success := false, files := [], totalFiles := 0, method := "failed",
        error := some s!"Conservative file reading failed: {msg}",
        events := [ConsEvent.archiveCall, ConsEvent.sleep 10000, ConsEvent.listCall] }
    | .ok none =>
      { success := true, files := [], totalFiles := 0, method := "minimal-api",
        error := none,
        events := [ConsEvent.archiveCall, ConsEvent.sleep 10000, ConsEvent.listCall] }
    | .ok (some items) =>
      let rootFiles := items.filter (fun it => it.type == "file")
      let r := consFileLoop env rootFiles 0
      { success := true, files := r.1, totalFiles := r.1.length, method := "minimal-api",
        error := none,
        events := [ConsEvent.archiveCall, ConsEvent.sleep 10000, ConsEvent.listCall] ++ r.2 }

end ConservativeReader

section BulkWriter

/-- A file handed to `GitHubService.bulkFileUpload` (`encoding` optional,
defaulting to `"utf-8"`). -/
structure UploadFile where
  path : String
  content : String
  encoding : Option String
deriving DecidableEq

/-- A tree entry as submitted to the create-tree endpoint. -/
structure TreeEntry where
  path : String
  mode : String
  type : String
  sha : Nat
deriving DecidableEq

/-- Trace events of `bulkFileUpload`.  Object identifiers (shas) are `Nat`. -/
inductive GitEvent where
  | getRepoCall
  | getRefCall (branch : String)
  | getTreeCall (sha : Nat)
  | createBlobCall (idx : Nat)
  | createTreeCall (entries : List TreeEntry) (base : Option Nat)
  | createCommitCall (message : String) (tree : Nat) (parents : List Nat)
  | updateRefCall (branch : String) (sha : Nat)
  | createRefCall (branch : String) (sha : Nat)
deriving DecidableEq

/-- Environment of one `bulkFileUpload` call: the outcome of each remote
primitive it may invoke.  `defaultBranch` is the repository lookup
(`.error` = repository missing/inaccessible); `blobShaOf i` is the blob
creation of the `i`-th file; the remaining fields are the tree, commit and
reference endpoints. -/
structure GitEnv where
  defaultBranch : Except String String
  refShaOf : String → Except String Nat
  treeShaOf : Nat → Except String Nat
  blobShaOf : Nat → Except String Nat
  newTreeSha : Except String Nat
  newCommitSha : Except String Nat
  updateRefRes : Except String Unit
  createRefRes : Except String Unit

/-- Result of `bulkFileUpload`, plus instrumentation: `refWrites` lists the
branch-reference mutations that actually took effect (a failed PATCH/POST
does not move the reference), and `events` is the ordered call trace. -/
structure BulkOut where
  success : Bool
  commitSha : Option Nat
  error : Option String
  filesProcessed : Nat
  totalFiles : Nat
  refWrites : List (String × Nat)
  events : List GitEvent
deriving DecidableEq

/-- Models `Promise.all` over the blob creations: the first failure rejects the
whole batch. -/
def seqExcept : List (Except String Nat) → Except String (List Nat)
  | [] => .ok []
  | .error e :: _ => .error e
  | .ok v :: rest =>
    match seqExcept rest with
    | .ok vs => .ok (v :: vs)
    | .error e => .error e

/-- A failing `BulkOut` (the catch block of `bulkFileUpload`): wraps the
thrown message, zero files processed, no reference mutation. -/
def bulkFail (msg : String) (total : Nat) (events : List GitEvent) : BulkOut :=
  { success := false, commitSha := none, error := some s!"Bulk upload failed: {msg}",
    filesProcessed := 0, totalFiles := total, refWrites := [], events := events }

/-- Steps 3–6 of `GitHubService.bulkFileUpload` (blob creation, tree
composition, commit creation, reference update/creation), shared by the
existing-branch and empty-repository paths: `curCommit`/`curTree` are the
resolved branch tip and its tree (both `none` for an empty repository) and
`ev12` is the trace of steps 1–2. -/
def bulkSteps (env : GitEnv) (files : List UploadFile) (message branch1 : String)
    (curCommit curTree : Option Nat) (ev12 : List GitEvent) : BulkOut :=
  let blobEvents := (List.range files.length).map GitEvent.createBlobCall
  match seqExcept ((List.range files.length).map env.blobShaOf) with
  | .error msg => bulkFail msg files.length (ev12 ++ blobEvents)
  | .ok shas =>
    let entries := (files.zip shas).map fun fs =>
      TreeEntry.mk fs.1.path "100644" "blob" fs.2
    let ev3 := ev12 ++ blobEvents ++ [GitEvent.createTreeCall entries curTree]
    match env.newTreeSha with
    | .error msg => bulkFail msg files.length ev3
    | .ok tSha =>
      let parents := match curCommit with | some c => [c] | none => []
      let ev4 := ev3 ++ [GitEvent.createCommitCall message tSha parents]
      match env.newCommitSha with
      | .error msg => bulkFail msg files.length ev4
      | .ok cSha =>
        match curCommit with
        | some _ =>
          match env.updateRefRes with
          | .ok _ =>
            { success := true, commitSha := some cSha, error := none,
              filesProcessed := files.length, totalFiles := files.length,
              refWrites := [(branch1, cSha)],
              events := ev4 ++ [GitEvent.updateRefCall branch1 cSha] }
          | .error msg =>
            bulkFail msg files.length (ev4 ++ [GitEvent.updateRefCall branch1 cSha])
        | none =>
          match env.createRefRes with
          | .ok _ =>
            { success := true, commitSha := some cSha, error := none,
              filesProcessed := files.length, totalFiles := files.length,
              refWrites := [(branch1, cSha)],
              events := ev4 ++ [GitEvent.createRefCall branch1 cSha] }
          | .error msg =>
            bulkFail msg files.length (ev4 ++ [GitEvent.createRefCall branch1 cSha])

/-- Source `GitHubService.bulkFileUpload`:
empty batches succeed trivially before any call; then
(1) resolve the repository and silently redirect `"main"` to the actual
default branch, (2) read the branch reference and its tree, treating any
failure there as an empty repository, and run steps 3–6 (`bulkSteps`):
(3) create one blob per file, (4) create one tree whose entries all use mode
`"100644"` and type `"blob"`, based on the existing tree when one was found,
(5) create one commit with the previous tip as sole parent (no parents for an
empty repository), and (6) last of all, update the branch reference — or
create it for an empty repository.  Any failure falls into the catch block
(`bulkFail`). -/
def bulkFileUpload (env : GitEnv) (owner repo : String) (files : List UploadFile)
    (message : String) (branch : String) : BulkOut :=
  if files.isEmpty then
    { success := true, commitSha := none, error := none, filesProcessed := 0,
      totalFiles := 0, refWrites := [], events := [] }
  else
    match env.defaultBranch with
    | .error _ =>
      bulkFail s!"Repository {owner}/{repo} not found or inaccessible" files.length
        [GitEvent.getRepoCall]
    | .ok defBranch =>
      let branch1 := if branch = "main" ∧ defBranch ≠ "main" then defBranch else branch
      match env.refShaOf branch1 with
      | .error _ =>
        bulkSteps env files message branch1 none none
          [GitEvent.getRepoCall, GitEvent.getRefCall branch1]
      | .ok c =>
        match env.treeShaOf c with
        | .error _ =>
          bulkSteps env files message branch1 none none
            [GitEvent.getRepoCall, GitEvent.getRefCall branch1, GitEvent.getTreeCall c]
        | .ok t =>
          bulkSteps env files message branch1 (some c) (some t)
            [GitEvent.getRepoCall, GitEvent.getRefCall branch1, GitEvent.getTreeCall c]

/-- Recogniser for commit-creation events. -/
def GitEvent.isCreateCommit : GitEvent → Bool
  | .createCommitCall _ _ _ => true
  | _ => false

/-- Recogniser for tree-creation events. -/
def GitEvent.isCreateTree : GitEvent → Bool
  | .createTreeCall _ _ => true
  | _ => false

/-- Recogniser for the two branch-reference mutations. -/
def GitEvent.isRefMutation : GitEvent → Bool
  | .updateRefCall _ _ => true
  | .createRefCall _ _ => true
  | _ => false

end BulkWriter

section Orchestrator

/-- The result of a file-reading path (`getRepositoryTreeRecursive` or
`getRepositoryFilesConservative`) as the orchestrator consumes it. -/
structure ReadFilesResult where
  success : Bool
  files : List TransferFile
  error : Option String
deriving DecidableEq

/-- Source `RepositoryMergeDetail`: the per-source-repository outcome row. -/
structure RepositoryMergeDetail where
  repository : String
  success : Bool
  transferredFiles : Nat
  skippedFiles : Nat
  errors : List String
  method : String
deriving DecidableEq

/-- Source `MergeResult` (the `rateLimitInfo` and `totalTime` bookkeeping fields are
not modelled; no claim concerns them). -/
structure MergeResult where
  success : Bool
  processedRepos : Nat
  transferredFiles : Nat
  skippedFiles : Nat
  errors : List String
  details : List RepositoryMergeDetail
deriving DecidableEq

/-- Environment of one `mergeRepositories` run: the behaviour of the two
readers, of `batchFileTransfer` (the coordinator, embedded separately above,
is abstracted into an arbitrary total function here — it catches its own
errors and always returns a result), and of `deleteRepository`
(`some msg` = the deletion threw `msg`). -/
structure MergeEnv where
  readOptimized : String → ReadFilesResult
  readConservative : String → ReadFilesResult
  batchTransfer : BatchFileTransferRequest → BatchFileTransferResult
  deleteRepo : String → Option String

/-- The arguments of `mergeRepositories` other than the repository list. -/
structure MergeCfg where
  targetOwner : String
  targetRepo : String
  separateFolders : Bool
  useCons : Bool
  delaySec : Nat

/-- Trace events of the orchestrator: sleeps, calls into the optimized or
conservative reader, submissions to `batchFileTransfer`, and repository
deletions. -/
inductive MergeEvent where
  | sleep (ms : Nat)
  | readOpt (repo : String)
  | readCons (repo : String)
  | transferCall (req : BatchFileTransferRequest)
  | deleteCall (repo : String)
deriving DecidableEq

/-- Recogniser for `batchFileTransfer` submissions in a merge trace. -/
def MergeEvent.isTransferCall : MergeEvent → Bool
  | .transferCall _ => true
  | _ => false

/-- Worker for `jsSplitSlash`. -/
def splitSlashAux : List Char → List Char → List String
  | [], acc => [String.mk acc.reverse]
  | c :: cs, acc =>
    if c = '/' then String.mk acc.reverse :: splitSlashAux cs []
    else splitSlashAux cs (c :: acc)

/-- JavaScript `s.split("/")`. -/
def jsSplitSlash (s : String) : List String :=
  splitSlashAux s.toList []

/-- Source `repoPath.split("/")[0]`. -/
def ownerOf (repoPath : String) : String :=
  ((jsSplitSlash repoPath)[0]?).getD ""

/-- Source `repoPath.split("/")[1]`. -/
def repoOf (repoPath : String) : String :=
  ((jsSplitSlash repoPath)[1]?).getD ""

/-- The read stage of one repository: conservative mode reads conservatively;
otherwise the optimized reader is tried and, when it fails or returns zero
files, the conservative reader is used as fallback with method
`"conservative-fallback"`. -/
def readPhase (env : MergeEnv) (useCons : Bool) (repoPath : String) :
    ReadFilesResult × String × List MergeEvent :=
  if useCons then
    (env.readConservative repoPath, "conservative", [MergeEvent.readCons repoPath])
  else
    let r := env.readOptimized repoPath
    if !r.success || r.files.length == 0 then
      (env.readConservative repoPath, "conservative-fallback",
        [MergeEvent.readOpt repoPath, MergeEvent.readCons repoPath])
    else
      (r, "optimized", [MergeEvent.readOpt repoPath])

/-- Per-repository state at the deletion-decision point. -/
structure RepoPhase where
  success : Bool
  transferredFiles : Nat
  skippedFiles : Nat
  errors : List String
  method : String
deriving DecidableEq

/-- Result of the read+transfer stage of one repository: either the state
reaching the deletion gate, or a caught exception (its message and the
method in force when it was thrown). -/
inductive PhaseOut where
  | ok (phase : RepoPhase)
  | caught (msg : String) (method : String)
deriving DecidableEq

/-- The conservative-mode batch loop of `mergeRepositories`: submit batches
of 5 files, sleeping 10 s before every batch but the first; failed batches
record an error string and do not throw. -/
def consBatchLoop (env : MergeEnv) (cfg : MergeCfg) (owner repo : String) :
    List (List TransferFile) → Nat → Nat × List String × List MergeEvent
  | [], _ => (0, [], [])
  | batch :: rest, i =>
    let ev0 := if i > 0 then [MergeEvent.sleep 10000] else []
    let j := i + 1
    let req : BatchFileTransferRequest :=
      { files := batch.map fun f => ⟨f.path, f.content, f.encoding⟩,
        message := s!"Batch transfer from {owner}/{repo} - batch {j}",
        branch := "main",
        folderPfx := if cfg.separateFolders then some repo else none }
    let res := env.batchTransfer req
    let t := consBatchLoop env cfg owner repo rest (i + 1)
    if res.success then
      (res.transferredFiles + t.1, t.2.1, ev0 ++ [MergeEvent.transferCall req] ++ t.2.2)
    else
      let e := jsStr res.error
      (t.1, s!"Batch {j} failed: {e}" :: t.2.1,
        ev0 ++ [MergeEvent.transferCall req] ++ t.2.2)

/-- The read+transfer stage of one repository (the body of the per-repository
try block of `mergeRepositories`, up to the deletion safety check):
read (with fallback), throw on read failure, treat an empty file list as a
trivial success with method suffix `"-empty"`, and otherwise transfer —
in conservative mode through batches of 5 (failures recorded, not thrown),
in optimized mode through one `batchFileTransfer` call whose failure is
thrown. -/
def transferPhase (env : MergeEnv) (cfg : MergeCfg) (repoPath : String) :
    PhaseOut × List MergeEvent :=
  let rp := readPhase env cfg.useCons repoPath
  let fr := rp.1
  let method := rp.2.1
  let ev1 := rp.2.2
  if !fr.success then
    (.caught (jsOrElse fr.error "Failed to read repository files") method, ev1)
  else if fr.files.length == 0 then
    (.ok ⟨true, 0, 0, [], method ++ "-empty"⟩, ev1)
  else if cfg.useCons then
    let batches := sliceChunks fr.files 5
    let r := consBatchLoop env cfg (ownerOf repoPath) (repoOf repoPath) batches 0
    (.ok ⟨r.1 > 0, r.1, 0, r.2.1, method⟩, ev1 ++ r.2.2)
  else
    let owner := ownerOf repoPath
    let repo := repoOf repoPath
    let req : BatchFileTransferRequest :=
      { files := fr.files.map fun f => ⟨f.path, f.content, f.encoding⟩,
        message := s!"Transfer from {owner}/{repo}",
        branch := "main",
        folderPfx := if cfg.separateFolders then some repo else none }
    let tr := env.batchTransfer req
    if !tr.success then
      (.caught (jsOrElse tr.error "File transfer failed") method,
        ev1 ++ [MergeEvent.transferCall req])
    else
      (.ok ⟨true, tr.transferredFiles, 0, [], method⟩,
        ev1 ++ [MergeEvent.transferCall req])

/-- The deletion safety check of `mergeRepositories`: delete exactly when the
transfer state has `success`, `transferredFiles >= 0` (always true for a
`Nat`) and an empty error list; a deletion failure appends an error without
revoking `success`; a failed gate appends a `Repository not deleted` error. -/
def deletionGate (env : MergeEnv) (cfg : MergeCfg) (repoPath : String)
    (p : RepoPhase) : RepoPhase × List MergeEvent :=
  if p.success && decide (0 ≤ p.transferredFiles) && p.errors.isEmpty then
    let ev := [MergeEvent.sleep (if cfg.useCons then 10000 else 5000),
               MergeEvent.deleteCall repoPath]
    match env.deleteRepo repoPath with
    | none => (p, ev)
    | some msg => ({ p with errors := p.errors ++ [s!"Deletion failed: {msg}"] }, ev)
  else
    let n := p.transferredFiles
    let joined := String.intercalate ", " p.errors
    let reason :=
      if p.errors.length > 0 then s!"Transfer had errors: {joined}"
      else s!"Transfer incomplete ({n} files transferred)"
    ({ p with errors := p.errors ++ [s!"Repository not deleted: {reason}"] }, [])

/-- The run-level error message pushed when a repository's processing throws
a rate-limit error and the run halts. -/
def haltMsgFor (repoPath : String) : String :=
  s!"Rate limit hit at repository {repoPath}. Consider using Conservative Mode or waiting before retrying."

/-- Outcome of processing one repository: its detail row, whether the run
halts (the caught message contained `"Rate limit"` or `"429"`), and the
events performed. -/
structure RepoStepOut where
  detail : RepositoryMergeDetail
  halted : Bool
  events : List MergeEvent
deriving DecidableEq

/-- One full iteration of the repository loop of `mergeRepositories`:
read+transfer, then — unless an exception was caught — the deletion gate.
A caught exception yields a failed detail carrying the message, and halts
the run when the message mentions `"Rate limit"` or `"429"`. -/
def processOneRepo (env : MergeEnv) (cfg : MergeCfg) (repoPath : String) : RepoStepOut :=
  match transferPhase env cfg repoPath with
  | (.caught msg method, ev) =>
    { detail := ⟨repoPath, false, 0, 0, [msg], method⟩,
      halted := strIncludes msg "Rate limit" || strIncludes msg "429",
      events := ev }
  | (.ok p, ev) =>
    let g := deletionGate env cfg repoPath p
    { detail := ⟨repoPath, g.1.success, g.1.transferredFiles, g.1.skippedFiles,
                 g.1.errors, g.1.method⟩,
      halted := false,
      events := ev ++ g.2 }

/-- Accumulated state of the repository loop: the detail rows, run-level
errors, transferred/skipped totals, the number of completed iterations
(`result.processedRepos`), the events, which repositories were actually
processed (instrumentation), and the repository that triggered a halt, if
any (instrumentation). -/
structure LoopOut where
  details : List RepositoryMergeDetail
  errors : List String
  transferred : Nat
  skipped : Nat
  processed : Nat
  events : List MergeEvent
  invoked : List String
  haltedAt : Option String
deriving DecidableEq

/-- The repository loop of `mergeRepositories` over the remaining
repositories, `i` being the index of the first one: in conservative mode
sleep before every repository but the first; process the repository; on a
halt push only the run-level rate-limit message and stop (the halted
repository's detail row is *not* appended — `break` skips the push);
otherwise append the detail, prefix and collect its errors, and continue. -/
def mergeLoop (env : MergeEnv) (cfg : MergeCfg) :
    List String → Nat → LoopOut
  | [], _ => ⟨[], [], 0, 0, 0, [], [], none⟩
  | repoPath :: rest, i =>
    let delayEv := if cfg.useCons && decide (i > 0)
      then [MergeEvent.sleep (cfg.delaySec * 1000)] else []
    let step := processOneRepo env cfg repoPath
    if step.halted then
      ⟨[], [haltMsgFor repoPath], 0, 0, 0, delayEv ++ step.events, [repoPath], some repoPath⟩
    else
      let t := mergeLoop env cfg rest (i + 1)
      ⟨step.detail :: t.details,
       (if step.detail.errors.isEmpty then []
        else step.detail.errors.map fun e => s!"{repoPath}: {e}") ++ t.errors,
       step.detail.transferredFiles + t.transferred,
       step.detail.skippedFiles + t.skipped,
       1 + t.processed,
       delayEv ++ step.events ++ t.events,
       repoPath :: t.invoked,
       t.haltedAt⟩

/-- Result of a merge run: the returned `MergeResult` plus the run trace and
halt instrumentation. -/
structure MergeRunOut where
  result : MergeResult
  events : List MergeEvent
  invoked : List String
  haltedAt : Option String
deriving DecidableEq

/-- Source `RepositoryService.mergeRepositories`: drive the repository loop, then
compute the final success flag — at least one successful detail row and no
recorded run-level error containing `"Rate limit"`.  (The trailing
`getRateLimit` informational call of the source is not modelled.) -/
def mergeRepositories (env : MergeEnv) (cfg : MergeCfg) (repos : List String) :
    MergeRunOut :=
  let L := mergeLoop env cfg repos 0
  let successCount := (L.details.filter fun d => d.success).length
  { result :=
      { success := decide (successCount > 0) &&
          ((L.errors.filter fun e => strIncludes e "Rate limit").length == 0),
        processedRepos := L.processed,
        transferredFiles := L.transferred,
        skippedFiles := L.skipped,
        errors := L.errors,
        details := L.details },
    events := L.events,
    invoked := L.invoked,
    haltedAt := L.haltedAt }

/-- The client-side guard of `executeTransfer` in the repository-merger
component: `if (!targetRepo || selectedRepos.length === 0) return;` —
the merge proceeds exactly when a target is chosen and at least one source
is selected. -/
def executeTransferProceeds (targetRepo : Option String)
    (selectedRepos : List String) : Bool :=
  !(targetRepo.isNone || selectedRepos.length == 0)

/-- A repository's read+transfer stage reached the deletion gate with
`success` set and no recorded error — the state in which the gate fires. -/
def goodPhase (env : MergeEnv) (cfg : MergeCfg) (r : String) : Prop :=
  ∃ p ev, transferPhase env cfg r = (PhaseOut.ok p, ev) ∧
    p.success = true ∧ p.errors = []

end Orchestrator

section SpecPredicates

/-- All-or-nothing behaviour of one `bulkFileUpload` call: either it succeeds
with one tree containing exactly the batch's paths, one commit, and a single
branch-reference write pointing the branch at that commit — or it fails with
no reference write at all; and in every case the only position of the trace
that may mutate a branch reference is the final one. -/
def BulkAtomic (files : List UploadFile) (message : String) (out : BulkOut) : Prop :=
  ((out.success = true ∧
      ∃ c b entries base t parents,
        out.commitSha = some c ∧
        out.refWrites = [(b, c)] ∧
        out.events.filter GitEvent.isCreateTree = [GitEvent.createTreeCall entries base] ∧
        out.events.filter GitEvent.isCreateCommit =
          [GitEvent.createCommitCall message t parents] ∧
        entries.map TreeEntry.path = files.map UploadFile.path ∧
        out.filesProcessed = files.length) ∨
    (out.success = false ∧ out.refWrites = [])) ∧
  ∀ e ∈ out.events.dropLast, GitEvent.isRefMutation e = false

/-- Behaviour of the executor under three consecutive 429 responses with
`maxRetries = 3`: exactly three requests, with sleeps of 2 and 4 minutes
between them (whatever retry-after hints the responses carried), then a
rate-limit failure, possibly after one final wait. -/
def Exec429Spec (env : ExecEnv) : Prop :=
  ∃ msg tail,
    makeRateLimitedRequest env 3 =
      (.error msg,
       [ExecEvent.request 1, ExecEvent.sleep 120000, ExecEvent.request 2,
        ExecEvent.sleep 240000, ExecEvent.request 3] ++ tail) ∧
    (msg = rateLimitExhaustedMsg ∨ ∃ m, msg = rateLimitThrowMsg m) ∧
    (tail = [] ∨ ∃ w, tail = [ExecEvent.sleep w])

/-- The subset of root items of type `"file"` (directories are not
recursed into by the conservative reader). -/
def rootFilesOf (items : List RootItem) : List RootItem :=
  items.filter fun it => it.type == "file"

/-- The files the conservative reader keeps from a root listing: one entry
per item whose individual content fetch succeeds. -/
def consKept (env : ConsEnv) (l : List RootItem) : List ConsFile :=
  l.filterMap fun it =>
    match env.fileContent it.path with
    | .ok fc => some ⟨it.path, jsOrElse fc.content "", jsOrElse fc.encoding "base64"⟩
    | .error _ => none

/-- Expected per-file call pattern after the first file: a 5-second sleep
before each fetch. -/
def consCallsTail (l : List RootItem) : List ConsEvent :=
  l.flatMap fun it => [ConsEvent.sleep 5000, ConsEvent.fileCall it.path]

/-- Expected per-file call pattern of the conservative reader's loop: the
first file is fetched with no preceding sleep, every later one is preceded
by a 5-second sleep. -/
def consCalls : List RootItem → List ConsEvent
  | [] => []
  | x :: rest => ConsEvent.fileCall x.path :: consCallsTail rest

end SpecPredicates

section Examples

/-- Executor environment: the first attempt hits a transient network error,
the second succeeds. -/
def exEnvNet : ExecEnv :=
  ⟨fun a => if a = 1 then .failed "Network error" else .ok, 0⟩

/-- Executor environment: every attempt hits a transient failure. -/
def exEnvNetAll : ExecEnv :=
  ⟨fun _ => .failed "Network error", 0⟩

/-- Executor environment: the first attempt receives a 429 carrying a
retry-after hint of 5 seconds, the second succeeds. -/
def exEnv429 : ExecEnv :=
  ⟨fun a => if a = 1 then .tooMany (some 5) none else .ok, 0⟩

/-- Executor environment: every attempt receives a 429 with a 5-second
retry-after hint. -/
def exEnvAll429 : ExecEnv :=
  ⟨fun _ => .tooMany (some 5) none, 0⟩

/-- A backend that transfers every submitted batch in full. -/
def singleOk : BatchFileTransferRequest → BatchFileTransferResult :=
  fun q => ⟨true, q.files.length, q.files.length, none⟩

/-- 201 one-byte files: one over the 200-file chunking trigger. -/
def filesA201 : List TransferFile :=
  List.replicate 201 ⟨"p", "a", "utf-8"⟩

/-- A transfer request for the 201 files. -/
def reqA201 : BatchFileTransferRequest :=
  ⟨filesA201, "m", "main", none⟩

/-- Bulk-writer environment in which every remote primitive succeeds. -/
def gitEnvOk : GitEnv :=
  { defaultBranch := .ok "main",
    refShaOf := fun _ => .ok 7,
    treeShaOf := fun _ => .ok 8,
    blobShaOf := fun i => .ok (100 + i),
    newTreeSha := .ok 9,
    newCommitSha := .ok 10,
    updateRefRes := .ok (),
    createRefRes := .ok () }

/-- A one-file batch for the bulk writer. -/
def filesB : List UploadFile := [⟨"x.txt", "X", none⟩]

/-- Conservative-reader environment: no archive available, a root listing
with two plain files, all content fetches succeeding. -/
def consEnvAB : ConsEnv :=
  { archiveSuccess := false,
    archiveUrl := none,
    listRoot := .ok (some [⟨"file", "a", "a"⟩, ⟨"file", "b", "b"⟩]),
    fileContent := fun _ => .ok ⟨some "Zg==", some "base64"⟩ }

/-- The standard orchestrator configuration used by the concrete runs:
separate folders, optimized (non-conservative) mode. -/
def cfgStd : MergeCfg := ⟨"tu", "tr", true, false, 15⟩

/-- Orchestrator environment for the incomplete-transfer run: the read finds
two files, the transfer reports success but only one transferred file, and
deletions succeed. -/
def envIncomplete : MergeEnv :=
  { readOptimized := fun _ => ⟨true, [⟨"a.txt", "A", "utf-8"⟩, ⟨"b.txt", "B", "utf-8"⟩], none⟩,
    readConservative := fun _ => ⟨false, [], some "unused"⟩,
    batchTransfer := fun req => ⟨true, 1, req.files.length, none⟩,
    deleteRepo := fun _ => none }

/-- Orchestrator environment in which both readers fail with rate-limit
errors, so processing any repository halts the run. -/
def envHalt : MergeEnv :=
  { readOptimized := fun _ => ⟨false, [], some "boom"⟩,
    readConservative := fun _ => ⟨false, [], some "Rate limit exceeded"⟩,
    batchTransfer := fun req => ⟨false, 0, req.files.length, some "unused"⟩,
    deleteRepo := fun _ => some "unused" }

/-- Orchestrator environment in which reading and transfer succeed but the
deletion call throws a rate-limit error. -/
def envDelRL : MergeEnv :=
  { readOptimized := fun _ => ⟨true, [⟨"a.txt", "A", "utf-8"⟩], none⟩,
    readConservative := fun _ => ⟨false, [], some "unused"⟩,
    batchTransfer := fun req => ⟨true, req.files.length, req.files.length, none⟩,
    deleteRepo := fun _ => some "Rate limit exceeded" }

/-- Orchestrator environment for an empty source repository: both readers
succeed with zero files. -/
def envEmpty : MergeEnv :=
  { readOptimized := fun _ => ⟨true, [], none⟩,
    readConservative := fun _ => ⟨true, [], none⟩,
    batchTransfer := fun req => ⟨true, req.files.length, req.files.length, none⟩,
    deleteRepo := fun _ => none }

/-- Orchestrator environment in which both readers fail with a plain error
(no rate-limit wording). -/
def envReads : MergeEnv :=
  { readOptimized := fun _ => ⟨false, [], some "nope"⟩,
    readConservative := fun _ => ⟨false, [], some "nope"⟩,
    batchTransfer := fun req => ⟨false, 0, req.files.length, some "nope"⟩,
    deleteRepo := fun _ => some "nope" }

end Examples

/-! ## Theorems -/

/-- C9: on a transient (non-429) failure the executor's first backoff wait is
`2 ^ 1 * 30000 = 60000` ms — sixty seconds, not the thirty seconds announced
by the specification and by the source's own inline comment (`30s, 60s,
120s`); the wait does double per attempt, under the same retry cap as the
429 path (three failures exhaust `maxRetries = 3`). -/
theorem exec_transient_backoff :
    makeRateLimitedRequest exEnvNet 3 =
      (.ok 2, [ExecEvent.request 1, ExecEvent.sleep 60000, ExecEvent.request 2]) ∧
    makeRateLimitedRequest exEnvNetAll 3 =
      (.error "Network error",
       [ExecEvent.request 1, ExecEvent.sleep 60000, ExecEvent.request 2,
        ExecEvent.sleep 120000, ExecEvent.request 3]) ∧
    (60000 : Nat) ≠ 30000 := by
  decide

/-- C4 counterexample: a 429 response carrying a retry-after hint of 5
seconds does not make the executor sleep for the hinted 5000 ms (nor within
any fixed buffer of it): with retries remaining the executor sleeps
`2 ^ 1 * 60000 = 120000` ms, ignoring the hint. -/
theorem exec_retry_after_ignored :
    makeRateLimitedRequest exEnv429 3 =
      (.ok 2, [ExecEvent.request 1, ExecEvent.sleep 120000, ExecEvent.request 2]) ∧
    (120000 : Nat) ≠ 5 * 1000 ∧ ¬(120000 : Nat) ≤ 5 * 1000 + 5000 := by
  decide

/-- C4 (amended): with `maxRetries = 3`, three consecutive 429 responses —
whatever retry-after or reset hints they carry — produce exactly three
requests separated by exponential-backoff sleeps of 2 and 4 minutes (the
hints are ignored while retries remain), and then a rate-limit failure; the
retry-after/reset computation is consulted only on the final attempt, where
it can add one last sleep before the failure but never a further retry. -/
theorem exec_429_retry_policy (env : ExecEnv) (ra1 rs1 ra2 rs2 ra3 rs3 : Option Nat)
    (h1 : env.respAt 1 = .tooMany ra1 rs1) (h2 : env.respAt 2 = .tooMany ra2 rs2)
    (h3 : env.respAt 3 = .tooMany ra3 rs3) : Exec429Spec env := by
  unfold Exec429Spec makeRateLimitedRequest
  by_cases hm : (rateLimitWaitMs ra3 rs3 env.now + 30000) / 60000 > 1
  · refine ⟨rateLimitThrowMsg ((rateLimitWaitMs ra3 rs3 env.now + 30000) / 60000), [],
      ?_, .inr ⟨_, rfl⟩, .inl rfl⟩
    simp only [execGo, h1, h2, h3, handleRateLimitError, if_pos hm]
    norm_num
  · refine ⟨rateLimitExhaustedMsg, [ExecEvent.sleep (rateLimitWaitMs ra3 rs3 env.now)],
      ?_, .inl rfl, .inr ⟨_, rfl⟩⟩
    simp only [execGo, h1, h2, h3, handleRateLimitError, if_neg hm]
    norm_num

/-- C4 witness: the amended 429 policy applied to the concrete environment
whose every response is a 429 with a 5-second retry-after hint. -/
theorem exec_429_retry_policy_witness :
    exEnvAll429.respAt 1 = .tooMany (some 5) none ∧
    exEnvAll429.respAt 2 = .tooMany (some 5) none ∧
    exEnvAll429.respAt 3 = .tooMany (some 5) none ∧
    Exec429Spec exEnvAll429 :=
  ⟨rfl, rfl, rfl,
    exec_429_retry_policy exEnvAll429 (some 5) none (some 5) none (some 5) none rfl rfl rfl⟩

/-- Every chunk produced by `sliceChunksAux` has at most `k` elements. -/
theorem sliceChunksAux_mem_length {α : Type} :
    ∀ (fuel : Nat) (xs : List α) (k : Nat), xs.length ≤ fuel →
      ∀ c ∈ sliceChunksAux fuel xs k, c.length ≤ k := by
  intro fuel
  induction fuel with
  | zero =>
    intro xs k h c hc
    cases xs <;> cases k <;> simp [sliceChunksAux] at hc
  | succ n ih =>
    intro xs k h c hc
    cases xs with
    | nil => simp [sliceChunksAux] at hc
    | cons x xs =>
      cases k with
      | zero => simp [sliceChunksAux] at hc
      | succ k =>
        simp only [sliceChunksAux, List.mem_cons] at hc
        rcases hc with rfl | hc
        · simp only [List.length_cons, List.length_take]
          omega
        · refine ih (xs.drop k) (k + 1) ?_ c hc
          simp only [List.length_drop]
          simp only [List.length_cons] at h
          omega

/-- Every chunk produced by `sliceChunks` has at most `k` elements. -/
theorem sliceChunks_mem_length {α : Type} (xs : List α) (k : Nat) :
    ∀ c ∈ sliceChunks xs k, c.length ≤ k :=
  sliceChunksAux_mem_length xs.length xs k le_rfl

/-- With a positive chunk size, concatenating the chunks recovers the list. -/
theorem sliceChunksAux_flatten {α : Type} :
    ∀ (fuel : Nat) (xs : List α) (k : Nat), xs.length ≤ fuel → 0 < k →
      (sliceChunksAux fuel xs k).flatten = xs := by
  intro fuel
  induction fuel with
  | zero =>
    intro xs k h hk
    cases xs with
    | nil => cases k <;> simp [sliceChunksAux]
    | cons x xs => simp at h
  | succ n ih =>
    intro xs k h hk
    cases xs with
    | nil => cases k <;> simp [sliceChunksAux]
    | cons x xs =>
      cases k with
      | zero => omega
      | succ k =>
        simp only [sliceChunksAux, List.flatten_cons]
        rw [ih (xs.drop k) (k + 1) (by simp only [List.length_drop]; simp at h; omega) hk]
        simp [List.take_append_drop]

/-- With a positive chunk size, concatenating the chunks recovers the list. -/
theorem sliceChunks_flatten {α : Type} (xs : List α) (k : Nat) (hk : 0 < k) :
    (sliceChunks xs k).flatten = xs :=
  sliceChunksAux_flatten xs.length xs k le_rfl hk

/-- The computed chunk size is always between 1 and 50. -/
theorem calculateOptimalChunkSize_bounds (files : List TransferFile) :
    1 ≤ calculateOptimalChunkSize files ∧ calculateOptimalChunkSize files ≤ 50 := by
  simp only [calculateOptimalChunkSize]
  by_cases h : totalContentSize files = 0
  · simp [h]
  · simp only [h, if_neg, ite_false]
    exact ⟨le_min (le_max_left _ _) (by norm_num), min_le_right _ _⟩

/-- When the backend transfers every submitted batch in full, the chunk loop
transfers the sum of the chunk sizes and records no error. -/
theorem chunkLoop_all_ok (single : BatchFileTransferRequest → BatchFileTransferResult)
    (base : BatchFileTransferRequest) (total : Nat)
    (hs : ∀ q, (single q).success = true ∧ (single q).transferredFiles = q.files.length) :
    ∀ (chunks : List (List TransferFile)) (i : Nat),
      (chunkLoop single base total chunks i).1 = (chunks.map List.length).sum ∧
      (chunkLoop single base total chunks i).2.1 = [] := by
  intro chunks
  induction chunks with
  | nil => intro i; simp [chunkLoop]
  | cons c rest ih =>
    intro i
    simp only [chunkLoop, List.map_cons, List.sum_cons]
    simp [(hs _).1, (hs _).2, (ih (i + 1)).1, (ih (i + 1)).2]

/-- The chunk loop started at a positive index produces an alternating
sleep/submit tail. -/
theorem chunkLoop_altTail (single : BatchFileTransferRequest → BatchFileTransferResult)
    (base : BatchFileTransferRequest) (total : Nat) :
    ∀ (chunks : List (List TransferFile)) (i : Nat),
      altTail (chunkLoop single base total chunks (i + 1)).2.2 = true := by
  intro chunks
  induction chunks with
  | nil => intro i; simp [chunkLoop, altTail]
  | cons c rest ih =>
    intro i
    simp only [chunkLoop]
    split <;> simp [altTail, ih (i + 1)]

/-- The full chunked-transfer trace is one submission followed by
alternating 2-second sleeps and submissions. -/
theorem chunked_shape (single : BatchFileTransferRequest → BatchFileTransferResult)
    (req : BatchFileTransferRequest) :
    chunkTraceShape (chunkedBatchFileTransfer single req).2 = true := by
  unfold chunkedBatchFileTransfer
  rcases h : sliceChunks req.files (calculateOptimalChunkSize req.files) with _ | ⟨c, rest⟩ <;>
    simp only [h]
  · simp [chunkLoop, chunkTraceShape]
  · simp only [chunkLoop]
    split <;> simp [chunkTraceShape, chunkLoop_altTail single req _ rest 0]

/-- C5: chunking is used exactly when the estimated payload exceeds 80 MB or
the file count exceeds 200; every chunk holds at most 50 files; chunks are
submitted sequentially with a 2-second pause between consecutive
submissions; and when every chunk succeeds in full the aggregate result
reports the total file count as transferred (and success for a non-empty
set). -/
theorem chunked_transfer_spec (single : BatchFileTransferRequest → BatchFileTransferResult)
    (req : BatchFileTransferRequest) :
    (batchFileTransfer single req =
      if estimatePayloadSize req.files > 80 * 1024 * 1024 ∨ req.files.length > 200
      then chunkedBatchFileTransfer single req
      else (single req, [ChunkEvent.submit req])) ∧
    (∀ c ∈ sliceChunks req.files (calculateOptimalChunkSize req.files), c.length ≤ 50) ∧
    chunkTraceShape (chunkedBatchFileTransfer single req).2 = true ∧
    ((∀ q, (single q).success = true ∧ (single q).transferredFiles = q.files.length) →
      (chunkedBatchFileTransfer single req).1.transferredFiles = req.files.length ∧
      (chunkedBatchFileTransfer single req).1.success = decide (req.files.length > 0)) := by
  refine ⟨rfl, ?_, chunked_shape single req, ?_⟩
  · intro c hc
    exact le_trans (sliceChunks_mem_length req.files _ c hc)
      (calculateOptimalChunkSize_bounds req.files).2
  · intro hs
    have hk := (calculateOptimalChunkSize_bounds req.files).1
    have hsum := chunkLoop_all_ok single req
      (sliceChunks req.files (calculateOptimalChunkSize req.files)).length hs
      (sliceChunks req.files (calculateOptimalChunkSize req.files)) 0
    have hjoin := sliceChunks_flatten req.files (calculateOptimalChunkSize req.files)
      (by omega)
    have hlen : ((sliceChunks req.files (calculateOptimalChunkSize req.files)).map
        List.length).sum = req.files.length := by
      rw [← List.length_flatten, hjoin]
    unfold chunkedBatchFileTransfer
    constructor
    · simp [hsum.1, hlen]
    · simp [hsum.1, hsum.2, hlen]

set_option maxRecDepth 4000 in
/-- C5 witness: a 201-file set (one over the trigger) against a backend that
transfers every batch in full: 201 files are reported transferred. -/
theorem chunked_transfer_spec_witness :
    (∀ q, (singleOk q).success = true ∧ (singleOk q).transferredFiles = q.files.length) ∧
    reqA201.files.length = 201 ∧
    (chunkedBatchFileTransfer singleOk reqA201).1.transferredFiles = reqA201.files.length ∧
    (chunkedBatchFileTransfer singleOk reqA201).1.success = decide (reqA201.files.length > 0) :=
  ⟨fun q => ⟨rfl, rfl⟩, by simp [reqA201, filesA201],
    (chunked_transfer_spec singleOk reqA201).2.2.2 (fun q => ⟨rfl, rfl⟩)⟩

/-- A successful `Promise.all` result has one value per input promise. -/
theorem seqExcept_ok_length :
    ∀ (l : List (Except String Nat)) (vs : List Nat), seqExcept l = .ok vs →
      vs.length = l.length := by
  intro l
  induction l with
  | nil => intro vs h; simp only [seqExcept] at h; cases h; rfl
  | cons a rest ih =>
    intro vs h
    cases a with
    | error e => simp [seqExcept] at h
    | ok v =>
      simp only [seqExcept] at h
      rcases hr : seqExcept rest with m | vs'
      · rw [hr] at h; cases h
      · rw [hr] at h
        cases h
        simp [ih vs' hr]

/-- The blob-creation events carry no tree, commit or reference action. -/
theorem blobEvents_flags (n : Nat) :
    ∀ e ∈ (List.range n).map GitEvent.createBlobCall,
      GitEvent.isCreateTree e = false ∧ GitEvent.isCreateCommit e = false ∧
      GitEvent.isRefMutation e = false := by
  intro e he
  simp only [List.mem_map] at he
  obtain ⟨i, _, rfl⟩ := he
  exact ⟨rfl, rfl, rfl⟩

/-- Steps 3–6 are all-or-nothing whenever the preceding trace `ev12` holds no
tree/commit/reference event (which steps 1–2 never produce). -/
theorem bulkSteps_spec (env : GitEnv) (files : List UploadFile)
    (message branch1 : String) (curCommit curTree : Option Nat)
    (ev12 : List GitEvent)
    (hev : ∀ e ∈ ev12, GitEvent.isCreateTree e = false ∧
      GitEvent.isCreateCommit e = false ∧ GitEvent.isRefMutation e = false) :
    BulkAtomic files message (bulkSteps env files message branch1 curCommit curTree ev12) := by
  have hblob := blobEvents_flags files.length
  unfold BulkAtomic bulkSteps
  rcases hb : seqExcept ((List.range files.length).map env.blobShaOf) with m | shas <;>
    simp only [hb]
  · refine ⟨.inr ⟨rfl, rfl⟩, ?_⟩
    intro e he
    have hm := List.dropLast_subset _ he
    rcases List.mem_append.mp hm with h1 | h2
    · exact (hev e h1).2.2
    · exact (hblob e h2).2.2
  · have hlen : shas.length = files.length := by
      have h := seqExcept_ok_length _ _ hb
      simpa using h
    have hpaths :
        (((files.zip shas).map fun fs => TreeEntry.mk fs.1.path "100644" "blob" fs.2).map
          TreeEntry.path) = files.map UploadFile.path := by
      rw [List.map_map]
      have h2 : ((files.zip shas).map fun fs => (TreeEntry.path ∘
          fun fs => TreeEntry.mk fs.1.path "100644" "blob" fs.2) fs) =
          ((files.zip shas).map Prod.fst).map UploadFile.path := by
        rw [List.map_map]; rfl
      rw [h2, List.map_fst_zip files shas (le_of_eq hlen.symm)]
    have fTreeEv : ev12.filter GitEvent.isCreateTree = [] :=
      List.filter_eq_nil_iff.mpr fun e he => by simp [(hev e he).1]
    have fCommitEv : ev12.filter GitEvent.isCreateCommit = [] :=
      List.filter_eq_nil_iff.mpr fun e he => by simp [(hev e he).2.1]
    have fTreeBlob : ((List.range files.length).map GitEvent.createBlobCall).filter
        GitEvent.isCreateTree = [] :=
      List.filter_eq_nil_iff.mpr fun e he => by simp [(hblob e he).1]
    have fCommitBlob : ((List.range files.length).map GitEvent.createBlobCall).filter
        GitEvent.isCreateCommit = [] :=
      List.filter_eq_nil_iff.mpr fun e he => by simp [(hblob e he).2.1]
    rcases hT : env.newTreeSha with m | tSha <;> simp only [hT]
    · refine ⟨.inr ⟨rfl, rfl⟩, ?_⟩
      intro e he
      have hm := List.dropLast_subset _ he
      rcases List.mem_append.mp hm with h1 | h2
      · rcases List.mem_append.mp h1 with h3 | h4
        · exact (hev e h3).2.2
        · exact (hblob e h4).2.2
      · simp only [List.mem_singleton] at h2
        subst h2; rfl
    · rcases hC : env.newCommitSha with m | cSha <;> simp only [hC]
      · refine ⟨.inr ⟨rfl, rfl⟩, ?_⟩
        intro e he
        have hm := List.dropLast_subset _ he
        rcases List.mem_append.mp hm with h1 | h2
        · rcases List.mem_append.mp h1 with h3 | h4
          · rcases List.mem_append.mp h3 with h5 | h6
            · exact (hev e h5).2.2
            · exact (hblob e h6).2.2
          · simp only [List.mem_singleton] at h4; subst h4; rfl
        · simp only [List.mem_singleton] at h2; subst h2; rfl
      · have hev4 : ∀ p e, e ∈ ev12 ++
            (List.range files.length).map GitEvent.createBlobCall ++
            [GitEvent.createTreeCall ((files.zip shas).map fun fs =>
              TreeEntry.mk fs.1.path "100644" "blob" fs.2) curTree] ++
            [GitEvent.createCommitCall message tSha p] →
            GitEvent.isRefMutation e = false := by
          intro p e he
          rcases List.mem_append.mp he with h1 | h2
          · rcases List.mem_append.mp h1 with h3 | h4
            · rcases List.mem_append.mp h3 with h5 | h6
              · exact (hev e h5).2.2
              · exact (hblob e h6).2.2
            · simp only [List.mem_singleton] at h4; subst h4; rfl
          · simp only [List.mem_singleton] at h2; subst h2; rfl
        have hdrop : ∀ (l : List GitEvent) (a : GitEvent), (l ++ [a]).dropLast = l :=
          fun l a => by simp
        cases curCommit with
        | some c0 =>
          rcases hU : env.updateRefRes with m | u
          · refine ⟨.inr ⟨rfl, rfl⟩, ?_⟩
            intro e he
            simp only [bulkFail, hdrop] at he
            exact hev4 [c0] e he
          · constructor
            · left
              refine ⟨rfl, cSha, branch1, _, curTree, tSha, [c0], rfl, rfl, ?_, ?_,
                hpaths, rfl⟩
              · simp [List.filter_append, fTreeEv, fTreeBlob, GitEvent.isCreateTree,
                  GitEvent.isCreateCommit, GitEvent.isRefMutation]
              · simp [List.filter_append, fCommitEv, fCommitBlob, GitEvent.isCreateTree,
                  GitEvent.isCreateCommit, GitEvent.isRefMutation]
            · intro e he
              simp only [hdrop] at he
              exact hev4 [c0] e he
        | none =>
          rcases hU : env.createRefRes with m | u
          · refine ⟨.inr ⟨rfl, rfl⟩, ?_⟩
            intro e he
            simp only [bulkFail, hdrop] at he
            exact hev4 [] e he
          · constructor
            · left
              refine ⟨rfl, cSha, branch1, _, curTree, tSha, [], rfl, rfl, ?_, ?_,
                hpaths, rfl⟩
              · simp [List.filter_append, fTreeEv, fTreeBlob, GitEvent.isCreateTree,
                  GitEvent.isCreateCommit, GitEvent.isRefMutation]
              · simp [List.filter_append, fCommitEv, fCommitBlob, GitEvent.isCreateTree,
                  GitEvent.isCreateCommit, GitEvent.isRefMutation]
            · intro e he
              simp only [hdrop] at he
              exact hev4 [] e he

/-- The two step-1/2 events of the existing-reference-missing path carry no
tree, commit or reference action. -/
theorem ev12_flags_two (b1 : String) :
    ∀ e ∈ [GitEvent.getRepoCall, GitEvent.getRefCall b1],
      GitEvent.isCreateTree e = false ∧ GitEvent.isCreateCommit e = false ∧
      GitEvent.isRefMutation e = false := by
  intro e he
  simp only [List.mem_cons, List.not_mem_nil, or_false] at he
  rcases he with rfl | rfl <;> exact ⟨rfl, rfl, rfl⟩

/-- The three step-1/2 events of the resolved-reference path carry no tree,
commit or reference action. -/
theorem ev12_flags_three (b1 : String) (c : Nat) :
    ∀ e ∈ [GitEvent.getRepoCall, GitEvent.getRefCall b1, GitEvent.getTreeCall c],
      GitEvent.isCreateTree e = false ∧ GitEvent.isCreateCommit e = false ∧
      GitEvent.isRefMutation e = false := by
  intro e he
  simp only [List.mem_cons, List.not_mem_nil, or_false] at he
  rcases he with rfl | rfl | rfl <;> exact ⟨rfl, rfl, rfl⟩

/-- Case analysis of `bulkFileUpload`: the trivial empty-batch return, the
repository-not-found failure, or a `bulkSteps` run whose step-1/2 trace
holds no tree/commit/reference event. -/
theorem bulkFileUpload_cases (env : GitEnv) (owner repo : String)
    (files : List UploadFile) (message branch : String) :
    (files = [] ∧ bulkFileUpload env owner repo files message branch =
      { success := true, commitSha := none, error := none, filesProcessed := 0,
        totalFiles := 0, refWrites := [], events := [] }) ∨
    bulkFileUpload env owner repo files message branch =
      bulkFail s!"Repository {owner}/{repo} not found or inaccessible" files.length
        [GitEvent.getRepoCall] ∨
    ∃ b1 curC curT ev12,
      (∀ e ∈ ev12, GitEvent.isCreateTree e = false ∧
        GitEvent.isCreateCommit e = false ∧ GitEvent.isRefMutation e = false) ∧
      bulkFileUpload env owner repo files message branch =
        bulkSteps env files message b1 curC curT ev12 := by
  unfold bulkFileUpload
  by_cases hni : files.isEmpty = true
  · rw [if_pos hni]
    exact .inl ⟨List.isEmpty_iff.mp hni, rfl⟩
  · rw [if_neg hni]
    rcases env.defaultBranch with m | db
    · exact .inr (.inl rfl)
    · dsimp only
      rcases env.refShaOf (if branch = "main" ∧ db ≠ "main" then db else branch) with m | c
      · exact .inr (.inr ⟨_, none, none, _, ev12_flags_two _, rfl⟩)
      · dsimp only
        rcases env.treeShaOf c with m | t
        · exact .inr (.inr ⟨_, none, none, _, ev12_flags_three _ _, rfl⟩)
        · exact .inr (.inr ⟨_, some c, some t, _, ev12_flags_three _ _, rfl⟩)

/-- C2: every call to `bulkFileUpload` with a non-empty file list either
lands all files in exactly one new commit (one tree creation holding exactly
the batch's paths, one commit creation) with the branch reference updated to
that commit as the one and only reference write, or reports failure with the
branch reference untouched; and a reference mutation can only ever be the
final event of the trace — blob, tree and commit creation never mutate the
reference. -/
theorem bulk_upload_all_or_nothing (env : GitEnv) (owner repo : String)
    (files : List UploadFile) (message branch : String) (hne : files ≠ []) :
    BulkAtomic files message (bulkFileUpload env owner repo files message branch) := by
  rcases bulkFileUpload_cases env owner repo files message branch with
    ⟨hnil, _⟩ | h0 | ⟨b1, curC, curT, ev12, hf, h0⟩
  · exact absurd hnil hne
  · rw [h0]
    refine ⟨.inr ⟨rfl, rfl⟩, ?_⟩
    intro e he
    simp [bulkFail] at he
  · rw [h0]
    exact bulkSteps_spec env files message b1 curC curT ev12 hf

/-- C2 witness: the all-or-nothing property applied to a concrete one-file
batch against an environment in which every remote primitive succeeds. -/
theorem bulk_upload_all_or_nothing_witness :
    filesB ≠ [] ∧
    BulkAtomic filesB "m" (bulkFileUpload gitEnvOk "o" "r" filesB "m" "main") :=
  ⟨by decide, bulk_upload_all_or_nothing gitEnvOk "o" "r" filesB "m" "main" (by decide)⟩

/-- Any tree-creation event in a `bulkSteps` trace (when steps 1–2
contributed no tree-creation event) carries only entries of mode `"100644"`
and type `"blob"`. -/
theorem bulkSteps_tree_modes (env : GitEnv) (files : List UploadFile)
    (message branch1 : String) (curCommit curTree : Option Nat)
    (ev12 : List GitEvent) (entries : List TreeEntry) (base : Option Nat)
    (hev : ∀ e ∈ ev12, GitEvent.isCreateTree e = false) :
    GitEvent.createTreeCall entries base ∈
      (bulkSteps env files message branch1 curCommit curTree ev12).events →
    ∀ e ∈ entries, e.mode = "100644" ∧ e.type = "blob" := by
  have hmap : ∀ (shas : List Nat),
      entries = (files.zip shas).map (fun fs => TreeEntry.mk fs.1.path "100644" "blob" fs.2) →
      ∀ e ∈ entries, e.mode = "100644" ∧ e.type = "blob" := by
    rintro shas rfl e he
    simp only [List.mem_map] at he
    obtain ⟨fs, _, rfl⟩ := he
    exact ⟨rfl, rfl⟩
  unfold bulkSteps
  rcases seqExcept ((List.range files.length).map env.blobShaOf) with m | shas
  · intro h
    simp only [bulkFail, List.mem_append] at h
    rcases h with h1 | h2
    · exact absurd (hev _ h1) (by simp [GitEvent.isCreateTree])
    · simp [List.mem_map] at h2
  · have hsplit : ∀ (tail : List GitEvent),
        GitEvent.createTreeCall entries base ∈
          (ev12 ++ (List.range files.length).map GitEvent.createBlobCall ++
            [GitEvent.createTreeCall ((files.zip shas).map fun fs =>
              TreeEntry.mk fs.1.path "100644" "blob" fs.2) curTree] ++ tail) →
        (∀ e ∈ tail, GitEvent.isCreateTree e = false) →
        ∀ e ∈ entries, e.mode = "100644" ∧ e.type = "blob" := by
      intro tail hmem htail
      rcases List.mem_append.mp hmem with h1 | h2
      · rcases List.mem_append.mp h1 with h3 | h4
        · rcases List.mem_append.mp h3 with h5 | h6
          · exact absurd (hev _ h5) (by simp [GitEvent.isCreateTree])
          · exact absurd h6 (by simp [List.mem_map])
        · simp only [List.mem_singleton] at h4
          obtain ⟨he, -⟩ := GitEvent.createTreeCall.inj h4
          exact hmap shas he
      · exact absurd (htail _ h2) (by simp [GitEvent.isCreateTree])
    rcases env.newTreeSha with m | tSha
    · intro h
      simp only [bulkFail] at h
      refine hsplit [] (by simpa using h) (by intro e he; cases he)
    · rcases env.newCommitSha with m | cSha
      · intro h
        simp only [bulkFail] at h
        refine hsplit [GitEvent.createCommitCall message tSha
          (match curCommit with | some c => [c] | none => [])] (by simpa using h) ?_
        intro e he
        simp only [List.mem_singleton] at he
        subst he; rfl
      · have hrt : ∀ r : GitEvent, GitEvent.isRefMutation r = true →
            GitEvent.isCreateTree r = false := by
          intro r hr
          cases r <;> first | rfl | simp [GitEvent.isRefMutation] at hr
        have htail2 : ∀ (p : List Nat) (r : GitEvent),
            GitEvent.isRefMutation r = true →
            ∀ e ∈ [GitEvent.createCommitCall message tSha p, r],
              GitEvent.isCreateTree e = false := by
          intro p r hr e he
          simp only [List.mem_cons, List.not_mem_nil, or_false] at he
          rcases he with rfl | rfl
          · rfl
          · exact hrt _ hr
        cases curCommit with
        | some c0 =>
          rcases env.updateRefRes with m | u <;> intro h
          · refine hsplit [GitEvent.createCommitCall message tSha [c0],
              GitEvent.updateRefCall branch1 cSha] (by simpa [bulkFail] using h)
              (htail2 [c0] _ rfl)
          · refine hsplit [GitEvent.createCommitCall message tSha [c0],
              GitEvent.updateRefCall branch1 cSha] (by simpa using h)
              (htail2 [c0] _ rfl)
        | none =>
          rcases env.createRefRes with m | u <;> intro h
          · refine hsplit [GitEvent.createCommitCall message tSha [],
              GitEvent.createRefCall branch1 cSha] (by simpa [bulkFail] using h)
              (htail2 [] _ rfl)
          · refine hsplit [GitEvent.createCommitCall message tSha [],
              GitEvent.createRefCall branch1 cSha] (by simpa using h)
              (htail2 [] _ rfl)

/-- C10: every tree entry the bulk writer submits to the create-tree
endpoint has git mode `"100644"` (regular non-executable blob) and type
`"blob"` — the input files carry no mode at all, so executable bits,
symlinks and submodule entries can never be preserved. -/
theorem bulk_tree_mode (env : GitEnv) (owner repo : String)
    (files : List UploadFile) (message branch : String)
    (entries : List TreeEntry) (base : Option Nat)
    (h : GitEvent.createTreeCall entries base ∈
      (bulkFileUpload env owner repo files message branch).events) :
    ∀ e ∈ entries, e.mode = "100644" ∧ e.type = "blob" := by
  rcases bulkFileUpload_cases env owner repo files message branch with
    ⟨hnil, h0⟩ | h0 | ⟨b1, curC, curT, ev12, hf, h0⟩
  · rw [h0] at h
    simp at h
  · rw [h0] at h
    simp [bulkFail] at h
  · rw [h0] at h
    exact bulkSteps_tree_modes env files message b1 curC curT ev12 entries base
      (fun e he => (hf e he).1) h

/-- The per-file loop entered at a positive index sleeps 5 seconds before
every fetch. -/
theorem consFileLoop_events_pos (env : ConsEnv) :
    ∀ (l : List RootItem) (i : Nat), 0 < i →
      (consFileLoop env l i).2 = consCallsTail l := by
  intro l
  induction l with
  | nil => intro i hi; simp [consFileLoop, consCallsTail]
  | cons x rest ih =>
    intro i hi
    simp only [consFileLoop, consCallsTail, List.flatMap_cons]
    rw [if_pos hi]
    split <;> simp only [List.append_assoc, List.cons_append, List.nil_append] <;>
      rw [ih (i + 1) (by omega)] <;> rfl

/-- The per-file loop entered at index 0 fetches the first file with no
preceding sleep and sleeps 5 seconds before every later fetch. -/
theorem consFileLoop_events_zero (env : ConsEnv) (l : List RootItem) :
    (consFileLoop env l 0).2 = consCalls l := by
  cases l with
  | nil => rfl
  | cons x rest =>
    simp only [consFileLoop, consCalls]
    rw [if_neg (by omega)]
    split <;> simp only [List.nil_append, List.cons_append] <;>
      rw [consFileLoop_events_pos env rest 1 (by omega)]

/-- The per-file loop keeps exactly the items whose fetch succeeds. -/
theorem consFileLoop_files (env : ConsEnv) :
    ∀ (l : List RootItem) (i : Nat), (consFileLoop env l i).1 = consKept env l := by
  intro l
  induction l with
  | nil => intro i; rfl
  | cons x rest ih =>
    intro i
    simp only [consFileLoop, consKept, List.filterMap_cons]
    rcases h : env.fileContent x.path with m | fc <;> simp only [h] <;>
      rw [ih (i + 1)] <;> rfl

/-- C8 (amended): when the archive probe yields nothing, the conservative
reader sleeps 10 seconds *after* that first remote call and before the root
listing; it lists only the root directory, fetches only entries of type
file (no recursion), sleeps 5 seconds between consecutive fetches (none
before the first), and returns exactly the subset of root files whose fetch
succeeded, with success and method minimal-api. -/
theorem conservative_reader_spec (env : ConsEnv) (items : List RootItem)
    (ha : (env.archiveSuccess && env.archiveUrl.isSome) = false)
    (hl : env.listRoot = .ok (some items)) :
    (getRepositoryFilesConservative env).success = true ∧
    (getRepositoryFilesConservative env).method = "minimal-api" ∧
    (getRepositoryFilesConservative env).files = consKept env (rootFilesOf items) ∧
    (getRepositoryFilesConservative env).events =
      [ConsEvent.archiveCall, ConsEvent.sleep 10000, ConsEvent.listCall] ++
        consCalls (rootFilesOf items) := by
  have hout : getRepositoryFilesConservative env =
      { success := true,
        files := (consFileLoop env (items.filter fun it => it.type == "file") 0).1,
        totalFiles := (consFileLoop env (items.filter fun it => it.type == "file") 0).1.length,
        method := "minimal-api", error := none,
        events := [ConsEvent.archiveCall, ConsEvent.sleep 10000, ConsEvent.listCall] ++
          (consFileLoop env (items.filter fun it => it.type == "file") 0).2 } := by
    unfold getRepositoryFilesConservative
    rw [ha, hl]
    rfl
  rw [hout]
  exact ⟨rfl, rfl, consFileLoop_files env _ 0,
    by rw [consFileLoop_events_zero]; rfl⟩

/-- C8 witness: the amended conservative-reader behaviour at the concrete
two-file environment. -/
theorem conservative_reader_spec_witness :
    ((consEnvAB.archiveSuccess && consEnvAB.archiveUrl.isSome) = false) ∧
    (consEnvAB.listRoot = .ok (some [⟨"file", "a", "a"⟩, ⟨"file", "b", "b"⟩])) ∧
    ((getRepositoryFilesConservative consEnvAB).success = true ∧
     (getRepositoryFilesConservative consEnvAB).method = "minimal-api" ∧
     (getRepositoryFilesConservative consEnvAB).files =
       consKept consEnvAB (rootFilesOf [⟨"file", "a", "a"⟩, ⟨"file", "b", "b"⟩]) ∧
     (getRepositoryFilesConservative consEnvAB).events =
       [ConsEvent.archiveCall, ConsEvent.sleep 10000, ConsEvent.listCall] ++
         consCalls (rootFilesOf [⟨"file", "a", "a"⟩, ⟨"file", "b", "b"⟩])) :=
  ⟨rfl, rfl, conservative_reader_spec consEnvAB _ rfl rfl⟩

/-- C8 counterexample: the conservative reader's first action is the
archive-probe remote call — the fixed 10-second wait comes only after it —
and the first file fetch is immediately preceded by the listing call, not by
a 5-second wait. -/
theorem conservative_first_call_before_wait :
    (getRepositoryFilesConservative consEnvAB).events =
      [ConsEvent.archiveCall, ConsEvent.sleep 10000, ConsEvent.listCall,
       ConsEvent.fileCall "a", ConsEvent.sleep 5000, ConsEvent.fileCall "b"] ∧
    (getRepositoryFilesConservative consEnvAB).events[0]? = some ConsEvent.archiveCall ∧
    ConsEvent.archiveCall ≠ ConsEvent.sleep 10000 ∧
    (getRepositoryFilesConservative consEnvAB).events[3]? = some (ConsEvent.fileCall "a") ∧
    (getRepositoryFilesConservative consEnvAB).events[2]? = some ConsEvent.listCall ∧
    ConsEvent.listCall ≠ ConsEvent.sleep 5000 := by
  decide


/-- Events of the read stage are read calls for the same repository. -/
theorem readPhase_events (env : MergeEnv) (u : Bool) (q : String) :
    ∀ e ∈ (readPhase env u q).2.2,
      e = MergeEvent.readOpt q ∨ e = MergeEvent.readCons q := by
  intro e he
  unfold readPhase at he
  split at he
  · simp only [List.mem_singleton] at he
    exact .inr he
  · dsimp only at he
    split at he
    · simp only [List.mem_cons, List.not_mem_nil, or_false] at he
      rcases he with rfl | rfl
      · exact .inl rfl
      · exact .inr rfl
    · simp only [List.mem_singleton] at he
      exact .inl he

/-- The third component of an `ite` of triples sharing that component. -/
theorem ite_pair_events {a b c : Type} (C : Prop) [Decidable C]
    (p q : a) (x y : b) (E : c) :
    (if C then (p, x, E) else (q, y, E)).2.2 = E := by
  split <;> rfl

/-- The second component of an `ite` of pairs sharing that component. -/
theorem ite_pair_snd {a b : Type} (C : Prop) [Decidable C] (p q : a) (E : b) :
    (if C then (p, E) else (q, E)).2 = E := by
  split <;> rfl

/-- Events of the conservative batch loop are sleeps and transfer calls. -/
theorem consBatchLoop_events (env : MergeEnv) (cfg : MergeCfg) (o r : String) :
    ∀ (l : List (List TransferFile)) (i : Nat),
      ∀ e ∈ (consBatchLoop env cfg o r l i).2.2,
        (∃ ms, e = MergeEvent.sleep ms) ∨ ∃ rq, e = MergeEvent.transferCall rq := by
  intro l
  induction l with
  | nil => intro i e h; cases h
  | cons b rest ih =>
    intro i e h
    unfold consBatchLoop at h
    dsimp only at h
    rw [ite_pair_events] at h
    rcases List.mem_append.mp h with h1 | h3
    · rcases List.mem_append.mp h1 with h0 | h2
      · split at h0
        · simp only [List.mem_singleton] at h0
          exact .inl ⟨_, h0⟩
        · cases h0
      · simp only [List.mem_singleton] at h2
        exact .inr ⟨_, h2⟩
    · exact ih (i + 1) e h3

/-- The read+transfer stage never performs a deletion call. -/
theorem transferPhase_no_delete (env : MergeEnv) (cfg : MergeCfg) (q d : String) :
    MergeEvent.deleteCall d ∉ (transferPhase env cfg q).2 := by
  intro h
  unfold transferPhase at h
  dsimp only at h
  split at h
  · rcases readPhase_events env cfg.useCons q _ h with h1 | h1 <;> simp at h1
  · split at h
    · rcases readPhase_events env cfg.useCons q _ h with h1 | h1 <;> simp at h1
    · split at h
      · rcases List.mem_append.mp h with h1 | h2
        · rcases readPhase_events env cfg.useCons q _ h1 with h3 | h3 <;> simp at h3
        · rcases consBatchLoop_events env cfg _ _ _ _ _ h2 with ⟨ms, h3⟩ | ⟨rq, h3⟩ <;>
            simp at h3
      · rw [ite_pair_snd] at h
        rcases List.mem_append.mp h with h1 | h2
        · rcases readPhase_events env cfg.useCons q _ h1 with h3 | h3 <;> simp at h3
        · simp only [List.mem_singleton] at h2
          simp at h2

/-- Deletion of repository `r` happens inside `processOneRepo env cfg q`
exactly when `q = r` and the stage reached the gate with success and no
errors. -/
theorem processOneRepo_delete_iff (env : MergeEnv) (cfg : MergeCfg) (q r : String) :
    MergeEvent.deleteCall r ∈ (processOneRepo env cfg q).events ↔
      (q = r ∧ goodPhase env cfg q) := by
  unfold processOneRepo
  rcases htp : transferPhase env cfg q with ⟨po, ev⟩
  cases po with
  | caught msg method =>
    dsimp only
    constructor
    · intro h
      have hnd := transferPhase_no_delete env cfg q r
      rw [htp] at hnd
      exact absurd h hnd
    · rintro ⟨rfl, p, ev2, hq, hsu, herr⟩
      rw [htp] at hq
      simp at hq
  | ok p =>
    dsimp only
    constructor
    · intro h
      rcases List.mem_append.mp h with h1 | h2
      · exfalso
        have hnd := transferPhase_no_delete env cfg q r
        rw [htp] at hnd
        exact hnd h1
      · unfold deletionGate at h2
        split at h2
        · rename_i hc
          have hcsucc : p.success = true := by
            simp only [Bool.and_eq_true] at hc
            exact hc.1.1
          have hcerr : p.errors = [] := by
            simp only [Bool.and_eq_true] at hc
            exact List.isEmpty_iff.mp hc.2
          have hrq : r = q := by
            rcases hq : env.deleteRepo q with _ | msg <;> rw [hq] at h2 <;>
              simp only [List.mem_cons, List.not_mem_nil, or_false] at h2 <;>
              rcases h2 with h2 | h2 <;> first
                | (exfalso; exact MergeEvent.noConfusion h2)
                | exact (MergeEvent.deleteCall.inj h2)
          exact ⟨hrq.symm, p, ev, htp, hcsucc, hcerr⟩
        · cases h2
    · rintro ⟨rfl, p2, ev2, hq, hsu, herr⟩
      rw [htp] at hq
      simp only [Prod.mk.injEq, PhaseOut.ok.injEq] at hq
      obtain ⟨rfl, rfl⟩ := hq
      refine List.mem_append.mpr (.inr ?_)
      unfold deletionGate
      rw [if_pos (by simp [hsu, herr])]
      rcases env.deleteRepo q with _ | msg <;> simp

/-- Deletion of `r` happens during the loop exactly when `r` was one of the
repositories actually processed and its stage reached the gate with success
and no errors. -/
theorem mergeLoop_delete_iff (env : MergeEnv) (cfg : MergeCfg) (r : String) :
    ∀ (repos : List String) (i : Nat),
      MergeEvent.deleteCall r ∈ (mergeLoop env cfg repos i).events ↔
        (r ∈ (mergeLoop env cfg repos i).invoked ∧ goodPhase env cfg r) := by
  intro repos
  induction repos with
  | nil => intro i; simp [mergeLoop]
  | cons q rest ih =>
    intro i
    unfold mergeLoop
    dsimp only
    by_cases hh : (processOneRepo env cfg q).halted
    · rw [if_pos hh]
      dsimp only
      constructor
      · intro h
        rcases List.mem_append.mp h with h1 | h2
        · split at h1
          · simp only [List.mem_singleton] at h1
            simp at h1
          · cases h1
        · have hd := (processOneRepo_delete_iff env cfg q r).mp h2
          exact ⟨by simp [hd.1], hd.1 ▸ hd.2⟩
      · rintro ⟨hr, hg⟩
        simp only [List.mem_singleton] at hr
        subst hr
        exact List.mem_append.mpr (.inr ((processOneRepo_delete_iff env cfg r r).mpr ⟨rfl, hg⟩))
    · rw [if_neg hh]
      dsimp only
      constructor
      · intro h
        rcases List.mem_append.mp h with h1 | h3
        · rcases List.mem_append.mp h1 with h0 | h2
          · split at h0
            · simp only [List.mem_singleton] at h0
              simp at h0
            · cases h0
          · have hd := (processOneRepo_delete_iff env cfg q r).mp h2
            exact ⟨List.mem_cons.mpr (.inl hd.1.symm), hd.1 ▸ hd.2⟩
        · have hd := (ih (i + 1)).mp h3
          exact ⟨List.mem_cons.mpr (.inr hd.1), hd.2⟩
      · rintro ⟨hr, hg⟩
        rcases List.mem_cons.mp hr with rfl | hr2
        · exact List.mem_append.mpr (.inl (List.mem_append.mpr
            (.inr ((processOneRepo_delete_iff env cfg r r).mpr ⟨rfl, hg⟩))))
        · exact List.mem_append.mpr (.inr ((ih (i + 1)).mpr ⟨hr2, hg⟩))

/-- C1 (amended): during a merge run, the orchestrator invokes deletion of a
source repository exactly when that repository was reached and its
read+transfer stage arrived at the deletion gate with `success = true` and
an empty errors list.  The third conjunct of the source's gate,
`transferredFiles >= 0`, is vacuously true for every count, so no
"full expected file count" condition is enforced. -/
theorem merge_deletion_iff (env : MergeEnv) (cfg : MergeCfg)
    (repos : List String) (r : String) :
    MergeEvent.deleteCall r ∈ (mergeRepositories env cfg repos).events ↔
      (r ∈ (mergeRepositories env cfg repos).invoked ∧ goodPhase env cfg r) :=
  mergeLoop_delete_iff env cfg r repos 0

/-- C1 counterexample: the read finds two files, the transfer reports
success with only one transferred file and no error, and the orchestrator
still deletes the source — deletion is not conditioned on the transfer
reporting the full expected file count. -/
theorem merge_incomplete_count_deleted :
    MergeEvent.deleteCall "u/a" ∈ (mergeRepositories envIncomplete cfgStd ["u/a"]).events ∧
    (mergeRepositories envIncomplete cfgStd ["u/a"]).result.details =
      [⟨"u/a", true, 1, 0, [], "optimized"⟩] ∧
    (envIncomplete.readOptimized "u/a").files.length = 2 ∧
    (1 : Nat) ≠ 2 := by
  decide


/-- When the loop halts, the halted repository sits exactly at the index of
the last appended detail (its own detail row is skipped by the `break`), the
processed count equals that index, and the run-level halt message naming the
repository was recorded. -/
theorem mergeLoop_halt (env : MergeEnv) (cfg : MergeCfg) :
    ∀ (repos : List String) (i : Nat) (r : String),
      (mergeLoop env cfg repos i).haltedAt = some r →
      repos[(mergeLoop env cfg repos i).details.length]? = some r ∧
      (mergeLoop env cfg repos i).processed = (mergeLoop env cfg repos i).details.length ∧
      haltMsgFor r ∈ (mergeLoop env cfg repos i).errors := by
  intro repos
  induction repos with
  | nil => intro i r h; simp [mergeLoop] at h
  | cons q rest ih =>
    intro i r h
    unfold mergeLoop at h ⊢
    dsimp only at h ⊢
    by_cases hh : (processOneRepo env cfg q).halted
    · rw [if_pos hh] at h ⊢
      dsimp only at h ⊢
      injection h with h
      subst h
      exact ⟨by simp, rfl, List.mem_singleton.mpr rfl⟩
    · rw [if_neg hh] at h ⊢
      dsimp only at h ⊢
      obtain ⟨h1, h2, h3⟩ := ih (i + 1) r h
      refine ⟨?_, ?_, List.mem_append.mpr (.inr h3)⟩
      · simpa using h1
      · simp only [List.length_cons]
        omega

/-- C3 (amended): the run halts exactly at a repository whose processing
threw an error mentioning rate limits: the halted repository's detail row is
not appended (details stop at its index), the processed count stops there,
and a run-level error naming the repository records the halt.  The final
success flag equals "at least one successful detail and no recorded
run-level error containing the text Rate limit" — which is implied by, but
not equivalent to, "no halt": any recorded error mentioning rate limits
(for example a failed deletion) also forces the error state. -/
theorem merge_halt_and_final_state (env : MergeEnv) (cfg : MergeCfg)
    (repos : List String) :
    (∀ r, (mergeRepositories env cfg repos).haltedAt = some r →
      repos[(mergeRepositories env cfg repos).result.details.length]? = some r ∧
      (mergeRepositories env cfg repos).result.processedRepos =
        (mergeRepositories env cfg repos).result.details.length ∧
      haltMsgFor r ∈ (mergeRepositories env cfg repos).result.errors) ∧
    (mergeRepositories env cfg repos).result.success =
      (decide (0 < ((mergeRepositories env cfg repos).result.details.filter
          fun d => d.success).length) &&
        (((mergeRepositories env cfg repos).result.errors.filter
          fun e => strIncludes e "Rate limit").length == 0)) := by
  exact ⟨fun r h => mergeLoop_halt env cfg repos 0 r h, rfl⟩

/-- C3 witness: with both readers failing on a rate-limit error, a two
repository run halts at the first repository: no detail row, no processed
repository, and the halt message recorded. -/
theorem merge_halt_and_final_state_witness :
    (mergeRepositories envHalt cfgStd ["u/a", "u/b"]).haltedAt = some "u/a" ∧
    ((["u/a", "u/b"] : List String)[(mergeRepositories envHalt cfgStd
        ["u/a", "u/b"]).result.details.length]? = some "u/a" ∧
      (mergeRepositories envHalt cfgStd ["u/a", "u/b"]).result.processedRepos =
        (mergeRepositories envHalt cfgStd ["u/a", "u/b"]).result.details.length ∧
      haltMsgFor "u/a" ∈ (mergeRepositories envHalt cfgStd ["u/a", "u/b"]).result.errors) :=
  ⟨by decide,
    (merge_halt_and_final_state envHalt cfgStd ["u/a", "u/b"]).1 "u/a" (by decide)⟩

/-- C3 counterexample: a run in which the one repository's transfer fully
succeeds but the subsequent deletion throws a rate-limit error: no halt
occurred and one repository succeeded, yet the final state is error — the
claimed equivalence "complete iff at least one success and no rate-limit
halt" fails. -/
theorem merge_error_state_without_halt :
    (mergeRepositories envDelRL cfgStd ["u/a"]).haltedAt = none ∧
    ((mergeRepositories envDelRL cfgStd ["u/a"]).result.details.filter
      fun d => d.success).length = 1 ∧
    (mergeRepositories envDelRL cfgStd ["u/a"]).result.success = false := by
  decide

/-- When the phase reaches the gate with success and no errors, the gate
fires: it sleeps, issues the deletion call, and leaves success, the
transferred count and the method unchanged (a deletion failure only appends
an error). -/
theorem deletionGate_fires (env : MergeEnv) (cfg : MergeCfg) (repoPath : String)
    (p : RepoPhase) (hs : p.success = true) (he : p.errors = []) :
    (deletionGate env cfg repoPath p).1.success = p.success ∧
    (deletionGate env cfg repoPath p).1.transferredFiles = p.transferredFiles ∧
    (deletionGate env cfg repoPath p).1.method = p.method ∧
    (deletionGate env cfg repoPath p).2 =
      [MergeEvent.sleep (if cfg.useCons then 10000 else 5000),
       MergeEvent.deleteCall repoPath] := by
  have hc : (p.success && decide (0 ≤ p.transferredFiles) && p.errors.isEmpty) = true := by
    simp [hs, he]
  unfold deletionGate
  rw [if_pos hc]
  rcases env.deleteRepo repoPath with _ | msg <;> exact ⟨rfl, rfl, rfl, rfl⟩

/-- C6 (amended): a source repository whose (final, post-fallback) read
succeeds with zero files is treated as a successful trivial transfer:
outcome success, zero transferred files, method suffixed `-empty`, no halt —
but no transfer call at all is issued for it (so the target gains no empty
folder placeholder, whatever the layout), and the deletion gate then fires
for the empty source. -/
theorem merge_empty_repo (env : MergeEnv) (cfg : MergeCfg) (repoPath : String)
    (fr : ReadFilesResult) (m : String) (ev : List MergeEvent)
    (h : readPhase env cfg.useCons repoPath = (fr, m, ev))
    (hs : fr.success = true) (hf : fr.files = []) :
    (processOneRepo env cfg repoPath).detail.success = true ∧
    (processOneRepo env cfg repoPath).detail.transferredFiles = 0 ∧
    (processOneRepo env cfg repoPath).detail.method = m ++ "-empty" ∧
    (processOneRepo env cfg repoPath).halted = false ∧
    (∀ e ∈ (processOneRepo env cfg repoPath).events,
      MergeEvent.isTransferCall e = false) ∧
    MergeEvent.deleteCall repoPath ∈ (processOneRepo env cfg repoPath).events := by
  have htp : transferPhase env cfg repoPath =
      (.ok ⟨true, 0, 0, [], m ++ "-empty"⟩, ev) := by
    unfold transferPhase
    rw [h]
    dsimp only
    rw [hs, hf]
    rfl
  have hg := deletionGate_fires env cfg repoPath ⟨true, 0, 0, [], m ++ "-empty"⟩ rfl rfl
  have hev : (readPhase env cfg.useCons repoPath).2.2 = ev := by rw [h]
  unfold processOneRepo
  rw [htp]
  dsimp only
  refine ⟨hg.1, hg.2.1, hg.2.2.1, rfl, ?_, ?_⟩
  · intro e hee
    rcases List.mem_append.mp hee with h1 | h2
    · rw [← hev] at h1
      rcases readPhase_events env cfg.useCons repoPath e h1 with h3 | h3 <;>
        subst h3 <;> rfl
    · rw [hg.2.2.2] at h2
      simp only [List.mem_cons, List.not_mem_nil, or_false] at h2
      rcases h2 with rfl | rfl <;> rfl
  · refine List.mem_append.mpr (.inr ?_)
    rw [hg.2.2.2]
    simp

/-- C6 witness: the amended empty-repository behaviour at the concrete
environment where both readers return success with zero files. -/
theorem merge_empty_repo_witness :
    readPhase envEmpty cfgStd.useCons "u/e" =
      (⟨true, [], none⟩, "conservative-fallback",
        [MergeEvent.readOpt "u/e", MergeEvent.readCons "u/e"]) ∧
    (⟨true, [], none⟩ : ReadFilesResult).success = true ∧
    (⟨true, [], none⟩ : ReadFilesResult).files = [] ∧
    ((processOneRepo envEmpty cfgStd "u/e").detail.success = true ∧
     (processOneRepo envEmpty cfgStd "u/e").detail.transferredFiles = 0 ∧
     (processOneRepo envEmpty cfgStd "u/e").detail.method =
       "conservative-fallback" ++ "-empty" ∧
     (processOneRepo envEmpty cfgStd "u/e").halted = false ∧
     (∀ e ∈ (processOneRepo envEmpty cfgStd "u/e").events,
       MergeEvent.isTransferCall e = false) ∧
     MergeEvent.deleteCall "u/e" ∈ (processOneRepo envEmpty cfgStd "u/e").events) :=
  ⟨by decide, rfl, rfl,
    merge_empty_repo envEmpty cfgStd "u/e" ⟨true, [], none⟩ "conservative-fallback"
      [MergeEvent.readOpt "u/e", MergeEvent.readCons "u/e"] (by decide) rfl rfl⟩

/-- C6 counterexample: merging an empty source with layout separate-folders
succeeds with zero transferred files, but the run performs no transfer call
whatsoever — the target cannot gain an empty folder placeholder (and the
empty source is then deleted). -/
theorem merge_empty_no_placeholder :
    cfgStd.separateFolders = true ∧
    (mergeRepositories envEmpty cfgStd ["u/e"]).result.details =
      [⟨"u/e", true, 0, 0, [], "conservative-fallback-empty"⟩] ∧
    (∀ e ∈ (mergeRepositories envEmpty cfgStd ["u/e"]).events,
      MergeEvent.isTransferCall e = false) ∧
    MergeEvent.deleteCall "u/e" ∈ (mergeRepositories envEmpty cfgStd ["u/e"]).events := by
  decide

/-- The read stage's first event is the read call of the selected mode. -/
theorem readPhase_events_head (env : MergeEnv) (u : Bool) (q : String) :
    ∃ rest, (readPhase env u q).2.2 =
      (if u then MergeEvent.readCons q else MergeEvent.readOpt q) :: rest := by
  unfold readPhase
  cases u with
  | true => exact ⟨[], rfl⟩
  | false =>
    simp only [Bool.false_eq_true, if_false]
    split
    · exact ⟨[MergeEvent.readCons q], rfl⟩
    · exact ⟨[], rfl⟩

/-- The read+transfer stage's events extend the read stage's events. -/
theorem transferPhase_events_extend (env : MergeEnv) (cfg : MergeCfg) (q : String) :
    ∃ tail, (transferPhase env cfg q).2 = (readPhase env cfg.useCons q).2.2 ++ tail := by
  unfold transferPhase
  dsimp only
  split
  · exact ⟨[], (List.append_nil _).symm⟩
  · split
    · exact ⟨[], (List.append_nil _).symm⟩
    · split
      · exact ⟨_, rfl⟩
      · rw [ite_pair_snd]
        exact ⟨_, rfl⟩

/-- A repository step's events extend the read+transfer stage's events. -/
theorem processOneRepo_events_extend (env : MergeEnv) (cfg : MergeCfg) (q : String) :
    ∃ tail, (processOneRepo env cfg q).events = (transferPhase env cfg q).2 ++ tail := by
  unfold processOneRepo
  rcases htp : transferPhase env cfg q with ⟨po, ev⟩
  cases po <;> dsimp only
  · exact ⟨_, rfl⟩
  · exact ⟨[], (List.append_nil _).symm⟩

/-- C7 (amended): the only client-side validation is the `executeTransfer`
guard, which rejects exactly the plans with no chosen target or no selected
source; any other plan — a single-source plan, or one whose target equals a
source — proceeds, and `mergeRepositories` performs no plan validation: its
very first event on a non-empty repository list is already a remote read
call. -/
theorem merge_no_plan_validation :
    (∀ (t : Option String) (s : List String),
      executeTransferProceeds t s = (t.isSome && !(s.length == 0))) ∧
    (∀ (env : MergeEnv) (cfg : MergeCfg) (r : String) (rs : List String),
      ∃ rest, (mergeRepositories env cfg (r :: rs)).events =
        (if cfg.useCons then MergeEvent.readCons r else MergeEvent.readOpt r) :: rest) := by
  constructor
  · intro t s
    cases t <;> simp [executeTransferProceeds]
  · intro env cfg r rs
    obtain ⟨t2, h2⟩ := transferPhase_events_extend env cfg r
    obtain ⟨t1, h1⟩ := processOneRepo_events_extend env cfg r
    obtain ⟨t0, h0⟩ := readPhase_events_head env cfg.useCons r
    have hd : (cfg.useCons && decide (0 > 0)) = false := by simp
    unfold mergeRepositories mergeLoop
    dsimp only
    by_cases hh : (processOneRepo env cfg r).halted
    · rw [if_pos hh]
      dsimp only
      rw [hd]
      rw [h1, h2, h0]
      exact ⟨_, rfl⟩
    · rw [if_neg hh]
      dsimp only
      rw [hd]
      rw [h1, h2, h0]
      exact ⟨_, rfl⟩

/-- C7 counterexample: a plan with a single source repository (fewer than
two), and even one whose target equals its only source, passes the
`executeTransfer` guard, and the merge run then performs remote read calls —
no rejection happens before remote calls. -/
theorem single_source_plan_proceeds :
    executeTransferProceeds (some "u/t") ["u/a"] = true ∧
    (["u/a"] : List String).length < 2 ∧
    executeTransferProceeds (some "u/a") ["u/a"] = true ∧
    (mergeRepositories envReads cfgStd ["u/a"]).events =
      [MergeEvent.readOpt "u/a", MergeEvent.readCons "u/a"] ∧
    (mergeRepositories envReads cfgStd ["u/a"]).events ≠ [] := by
  decide

/-- C10 witness: in the concrete successful run, the submitted tree entry
for `x.txt` has mode 100644 and type blob. -/
theorem bulk_tree_mode_witness :
    (GitEvent.createTreeCall [TreeEntry.mk "x.txt" "100644" "blob" 100] (some 8) ∈
      (bulkFileUpload gitEnvOk "o" "r" filesB "m" "main").events) ∧
    (∀ e ∈ [TreeEntry.mk "x.txt" "100644" "blob" 100],
      e.mode = "100644" ∧ e.type = "blob") :=
  ⟨by decide, bulk_tree_mode gitEnvOk "o" "r" filesB "m" "main"
    [TreeEntry.mk "x.txt" "100644" "blob" 100] (some 8) (by decide)⟩
